import Mathlib

/-!
Verification of the `ands` binary search tree core (`ds/BST.py`, `ds/BSTNode.py`).

Two embeddings are developed, both translated from the Python source:

* A heap (pointer) model: nodes live in a heap `Nat → PyNode`, each node record
  carrying `key`, `value` and the `parent`/`left`/`right` links as `Option Nat`
  (Python `None` = `none`).  A `PyBST` state holds the heap, the `root` pointer,
  the node count `n` (a Python `int`, hence `Int`) and an allocator counter
  `next` modelling creation of fresh `BSTNode` objects.  Python exceptions are
  an explicit error type; unbounded loops and recursions take a fuel argument
  (`none` = fuel exhausted, which Python never hits on finite trees).

* A functional inductive-tree model of `tail_insert`, `_root_insert` (with its
  rotations) and `_rank`, used for the universally quantified ordering and
  order-statistics claims.
-/

namespace Ands

/-- Python exception kinds raised by the BST code. -/
inductive PyErr where
  | typeError
  | lookupError
  | attributeError
  | exception
  deriving Repr, DecidableEq

/-- A Python truthiness value as returned by the `has_*` predicates of
`BSTNode`: `None`, a `bool`, or a node object (reference). -/
inductive PyVal where
  | vnone
  | vbool (b : Bool)
  | vnode (u : Nat)
  deriving Repr, DecidableEq

/-- Python truthiness: `None` and `False` are falsy, `True` and any node
object are truthy. -/
def PyVal.truthy : PyVal → Bool
  | .vnone => false
  | .vbool b => b
  | .vnode _ => true

/-- Python `x or y`: returns `x` if truthy, else `y`. -/
def pyOr (a b : PyVal) : PyVal := if a.truthy then a else b

/-- Python `x and y`: returns `x` if falsy, else `y`. -/
def pyAnd (a b : PyVal) : PyVal := if a.truthy then b else a

/-- Python `not x`: always an actual boolean. -/
def pyNot (a : PyVal) : PyVal := .vbool (!a.truthy)

/-- A nullable node reference as a truthiness value. -/
def optToVal : Option Nat → PyVal
  | none => .vnone
  | some u => .vnode u

/-- A `BSTNode` record (`ds/BSTNode.py`, `__init__`): key, optional value and
the `parent`/`left`/`right` links.  Keys are `Int` (a totally ordered,
comparable type as the source requires). -/
structure PyNode where
  key : Int
  value : Option Int
  parent : Option Nat
  left : Option Nat
  right : Option Nat
  deriving Repr, DecidableEq

/-- The tree state of a `BST` object (`ds/BST.py`, `__init__`): the heap of
node objects, the `root` reference, the node count `self.n`, and an allocator
counter for fresh node ids. -/
structure PyBST where
  nodes : Nat → PyNode
  root : Option Nat
  n : Int
  next : Nat

/-- Update one node record in the heap, as a Python attribute assignment does. -/
def setNode (st : PyBST) (i : Nat) (f : PyNode → PyNode) : PyBST :=
  { st with nodes := Function.update st.nodes i (f (st.nodes i)) }

/-- A freshly constructed `BSTNode(key, value)`: all links `None`. -/
def newNode (k : Int) (v : Option Int) : PyNode :=
  { key := k, value := v, parent := none, left := none, right := none }

/-- An empty `BST()` object. -/
def bstEmpty : PyBST :=
  { nodes := fun _ => newNode 0 none, root := none, n := 0, next := 0 }

/-- Modelled from the spec: `BaseNode` (imported by `BSTNode.py`) is not under
`src/`; per the source comments in `BST.py` (lines 570-572, 594-596) node
comparison `==` "compares basically if they are the same object", i.e. object
identity, which in this heap model is equality of node ids. -/
def nodeEq (a b : Nat) : Bool := a == b

/-- `BSTNode.is_left_child` (`ds/BSTNode.py` lines 74-79): raises
`AttributeError` when there is no parent; returns `parent.left == self` when
the parent's left link is set; implicitly returns `None` otherwise. -/
def isLeftChild (st : PyBST) (u : Nat) : Except PyErr (Option Bool) :=
  match (st.nodes u).parent with
  | some p =>
    match (st.nodes p).left with
    | some l => .ok (some (nodeEq l u))
    | none => .ok none
  | none => .error .attributeError

/-- `BSTNode.is_right_child` (`ds/BSTNode.py` lines 81-86), mirror image. -/
def isRightChild (st : PyBST) (u : Nat) : Except PyErr (Option Bool) :=
  match (st.nodes u).parent with
  | some p =>
    match (st.nodes p).right with
    | some r => .ok (some (nodeEq r u))
    | none => .ok none
  | none => .error .attributeError

/-- `BSTNode.has_children` (`ds/BSTNode.py` line 90): `self.left or self.right`
under Python `or`, so the returned value is a node object or `None`, not a
boolean. -/
def hasChildren (st : PyBST) (u : Nat) : PyVal :=
  pyOr (optToVal (st.nodes u).left) (optToVal (st.nodes u).right)

/-- `BSTNode.has_one_child` (`ds/BSTNode.py` line 94):
`(self.left and not self.right) or (not self.left and self.right)`. -/
def hasOneChild (st : PyBST) (u : Nat) : PyVal :=
  pyOr (pyAnd (optToVal (st.nodes u).left) (pyNot (optToVal (st.nodes u).right)))
    (pyAnd (pyNot (optToVal (st.nodes u).left)) (optToVal (st.nodes u).right))

/-- `BSTNode.has_two_children` (`ds/BSTNode.py` line 98):
`self.left and self.right`. -/
def hasTwoChildren (st : PyBST) (u : Nat) : PyVal :=
  pyAnd (optToVal (st.nodes u).left) (optToVal (st.nodes u).right)

/-- The target of a rotation or deletion call: either a raw key (resolved by a
search) or a node object (a heap id), matching the `isinstance(x, BSTNode)`
dispatch in the source. -/
inductive PyArg where
  | key (k : Int)
  | node (u : Nat)

/-- `BST._search_i` (lines 269-283): iterative descent from `s`; returns the
node whose key equals the query or `None`.  Fuel bounds the loop; `none` means
fuel ran out (never happens on a finite acyclic tree). -/
def searchIFrom (st : PyBST) (k : Int) : Option Nat → Nat → Option (Option Nat)
  | none, _ => some none
  | some _, 0 => none
  | some c, fuel + 1 =>
    if k = (st.nodes c).key then some (some c)
    else if k < (st.nodes c).key then searchIFrom st k (st.nodes c).left fuel
    else searchIFrom st k (st.nodes c).right fuel

/-- `BST._initialise` (lines 78-84): sets `u` as the new root, clears its
links and sets the node count to 1. -/
def initialise (st : PyBST) (u : Nat) : PyBST :=
  let st1 := { st with root := some u }
  let st2 := setNode st1 u (fun nd => { nd with parent := none, left := none, right := none })
  { st2 with n := 1 }

/-- The `while` walk of `BST.tail_insert` (lines 177-182): starting from a
non-`None` node, follow the left link when `x.key < c.key` and the right link
otherwise, returning the last node visited (the parent of the empty slot). -/
def tailWalk (st : PyBST) (xk : Int) : Nat → Nat → Option Nat
  | _, 0 => none
  | c, fuel + 1 =>
    match (if xk < (st.nodes c).key then (st.nodes c).left else (st.nodes c).right) with
    | none => some c
    | some c2 => tailWalk st xk c2 fuel

/-- `BST.tail_insert` (lines 154-191) for a raw key: allocate a fresh
`BSTNode(key, value)`, initialise the root if the tree is empty, else walk to
the empty slot, attach the new node on the side given by `x.key < p.key`, set
its parent, and increment `n`. -/
def tailInsertNew (st : PyBST) (k : Int) (v : Option Int) (fuel : Nat) : Option PyBST :=
  let x := st.next
  let st0 := { st with nodes := Function.update st.nodes x (newNode k v), next := x + 1 }
  match st0.root with
  | none => some (initialise st0 x)
  | some rt =>
    match tailWalk st0 k rt fuel with
    | none => none
    | some p =>
      let st1 :=
        if k < (st0.nodes p).key then setNode st0 p (fun nd => { nd with left := some x })
        else setNode st0 p (fun nd => { nd with right := some x })
      let st2 := setNode st1 x (fun nd => { nd with parent := some p })
      some { st2 with n := st2.n + 1 }

/-- `BST.left_rotate` line 421, `c.right.parent = c.parent` (`r` is the right
child just checked non-`None`). -/
def leftRotStepA (st : PyBST) (c r : Nat) : PyBST :=
  setNode st r (fun nd => { nd with parent := (st.nodes c).parent })

/-- `BST.left_rotate` lines 426-435: when `c` is the root the root pointer
moves to `c.right`, else the parent's child slot holding `c` is repointed to
`c.right`; the branch condition is the truthiness of `c.is_left_child()`. -/
def leftRotStepB (st1 : PyBST) (c : Nat) : PyBST :=
  match (st1.nodes c).parent with
  | none => { st1 with root := (st1.nodes c).right }
  | some p =>
    if (st1.nodes p).left = some c then
      setNode st1 p (fun nd => { nd with left := (st1.nodes c).right })
    else
      setNode st1 p (fun nd => { nd with right := (st1.nodes c).right })

/-- `BST.left_rotate` line 439, `c.parent = c.right`. -/
def leftRotStepC (st2 : PyBST) (c : Nat) : PyBST :=
  setNode st2 c (fun nd => { nd with parent := (st2.nodes c).right })

/-- `BST.left_rotate` line 446, `c.right = c.parent.left`; the error arm
models dereferencing a `None` parent (unreachable: the parent was just
assigned). -/
def leftRotStepD (st3 : PyBST) (c : Nat) : Except PyErr PyBST :=
  match (st3.nodes c).parent with
  | none => .error .attributeError
  | some pa => .ok (setNode st3 c (fun nd => { nd with right := (st3.nodes pa).left }))

/-- `BST.left_rotate` lines 450-451, `if c.right is not None:
c.right.parent = c`. -/
def leftRotStepE (st4 : PyBST) (c : Nat) : PyBST :=
  match (st4.nodes c).right with
  | some w => setNode st4 w (fun nd => { nd with parent := some c })
  | none => st4

/-- `BST.left_rotate` lines 455-457, `c.parent.left = c; return c.parent`. -/
def leftRotStepF (st5 : PyBST) (c : Nat) : Except PyErr (PyBST × Option Nat) :=
  match (st5.nodes c).parent with
  | none => .error .attributeError
  | some pb =>
    let st6 := setNode st5 pb (fun nd => { nd with left := some c })
    .ok (st6, (st6.nodes c).parent)

/-- `BST.left_rotate` (lines 392-457) on a resolved node `c`: raises when
`c.right` is `None`, else performs the statement sequence
`leftRotStepA`..`leftRotStepF`, every field re-read from the current state
exactly where the Python reads it; returns the final `c.parent` (the new
parent of the rotated node). -/
def leftRotateNode (st : PyBST) (c : Nat) : Except PyErr (PyBST × Option Nat) :=
  match (st.nodes c).right with
  | none => .error .exception
  | some r =>
    match leftRotStepD (leftRotStepC (leftRotStepB (leftRotStepA st c r) c) c) c with
    | .error e => .error e
    | .ok st4 => leftRotStepF (leftRotStepE st4 c) c

/-- `BST.right_rotate` line 479, `c.left.parent = c.parent`. -/
def rightRotStepA (st : PyBST) (c l : Nat) : PyBST :=
  setNode st l (fun nd => { nd with parent := (st.nodes c).parent })

/-- `BST.right_rotate` lines 484-491: root pointer or parent child slot moves
to `c.left`. -/
def rightRotStepB (st1 : PyBST) (c : Nat) : PyBST :=
  match (st1.nodes c).parent with
  | none => { st1 with root := (st1.nodes c).left }
  | some p =>
    if (st1.nodes p).left = some c then
      setNode st1 p (fun nd => { nd with left := (st1.nodes c).left })
    else
      setNode st1 p (fun nd => { nd with right := (st1.nodes c).left })

/-- `BST.right_rotate` line 494, `c.parent = c.left`. -/
def rightRotStepC (st2 : PyBST) (c : Nat) : PyBST :=
  setNode st2 c (fun nd => { nd with parent := (st2.nodes c).left })

/-- `BST.right_rotate` line 497, `c.left = c.parent.right`. -/
def rightRotStepD (st3 : PyBST) (c : Nat) : Except PyErr PyBST :=
  match (st3.nodes c).parent with
  | none => .error .attributeError
  | some pa => .ok (setNode st3 c (fun nd => { nd with left := (st3.nodes pa).right }))

/-- `BST.right_rotate` lines 499-500, `if c.left is not None:
c.left.parent = c`. -/
def rightRotStepE (st4 : PyBST) (c : Nat) : PyBST :=
  match (st4.nodes c).left with
  | some w => setNode st4 w (fun nd => { nd with parent := some c })
  | none => st4

/-- `BST.right_rotate` lines 502-503, `c.parent.right = c; return c.parent`. -/
def rightRotStepF (st5 : PyBST) (c : Nat) : Except PyErr (PyBST × Option Nat) :=
  match (st5.nodes c).parent with
  | none => .error .attributeError
  | some pb =>
    let st6 := setNode st5 pb (fun nd => { nd with right := some c })
    .ok (st6, (st6.nodes c).parent)

/-- `BST.right_rotate` (lines 459-503) on a resolved node, mirror image of
`leftRotateNode`: raises when `c.left` is `None`. -/
def rightRotateNode (st : PyBST) (c : Nat) : Except PyErr (PyBST × Option Nat) :=
  match (st.nodes c).left with
  | none => .error .exception
  | some l =>
    match rightRotStepD (rightRotStepC (rightRotStepB (rightRotStepA st c l) c) c) c with
    | .error e => .error e
    | .ok st4 => rightRotStepF (rightRotStepE st4 c) c

/-- `BST.left_rotate` argument dispatch (lines 404-414): a key argument is
resolved via `search` (iterative from the root) and an absent key raises. -/
def leftRotateArg (st : PyBST) (x : PyArg) (fuel : Nat) :
    Option (Except PyErr (PyBST × Option Nat)) :=
  match x with
  | .node u => some (leftRotateNode st u)
  | .key k =>
    match searchIFrom st k st.root fuel with
    | none => none
    | some none => some (.error .exception)
    | some (some c) => some (leftRotateNode st c)

/-- `BST.right_rotate` argument dispatch (lines 463-473), mirror image. -/
def rightRotateArg (st : PyBST) (x : PyArg) (fuel : Nat) :
    Option (Except PyErr (PyBST × Option Nat)) :=
  match x with
  | .node u => some (rightRotateNode st u)
  | .key k =>
    match searchIFrom st k st.root fuel with
    | none => none
    | some none => some (.error .exception)
    | some (some c) => some (rightRotateNode st c)

/-- `BST._root_insert` (lines 214-226): recursively insert `v` into the
subtree at `u`, assign the returned subtree root as the child, then rotate `u`
so that the inserted node moves up.  The rotation's return value (`u`'s new
parent) is what the recursion returns. -/
def rootInsertRec (st : PyBST) (u : Option Nat) (v : Nat) (fuel : Nat) :
    Option (Except PyErr (PyBST × Option Nat)) :=
  match fuel with
  | 0 => none
  | fuel + 1 =>
    match u with
    | none => some (.ok (st, some v))
    | some uu =>
      if (st.nodes v).key < (st.nodes uu).key then
        match rootInsertRec st (st.nodes uu).left v fuel with
        | none => none
        | some (.error e) => some (.error e)
        | some (.ok (st1, w)) =>
          let st2 := setNode st1 uu (fun nd => { nd with left := w })
          match rightRotateNode st2 uu with
          | .error e => some (.error e)
          | .ok (st3, ret) => some (.ok (st3, ret))
      else
        match rootInsertRec st (st.nodes uu).right v fuel with
        | none => none
        | some (.error e) => some (.error e)
        | some (.ok (st1, w)) =>
          let st2 := setNode st1 uu (fun nd => { nd with right := w })
          match leftRotateNode st2 uu with
          | .error e => some (.error e)
          | .ok (st3, ret) => some (.ok (st3, ret))

/-- `BST.root_insert` (lines 193-212) for a raw key: allocate a fresh node,
initialise the root if the tree is empty, else run `_root_insert` from the
root (its return value is discarded; the rotations maintain the root pointer)
and increment `n`. -/
def rootInsertNew (st : PyBST) (k : Int) (v : Option Int) (fuel : Nat) :
    Option (Except PyErr PyBST) :=
  let x := st.next
  let st0 := { st with nodes := Function.update st.nodes x (newNode k v), next := x + 1 }
  match st0.root with
  | none => some (.ok (initialise st0 x))
  | some rt =>
    match rootInsertRec st0 (some rt) x fuel with
    | none => none
    | some (.error e) => some (.error e)
    | some (.ok (st1, _)) => some (.ok { st1 with n := st1.n + 1 })

/-- The bound of `randint(0, self.size() * 3 // 8)` in `BST.insert` (line 138)
for a tree of (non-negative) size `n`. -/
def insertBound (n : Nat) : Nat := n * 3 / 8

/-- `BST.insert` (lines 113-142) with the sampled value `r` of
`randint(0, size * 3 // 8)` passed explicitly: dispatches to `root_insert`
when `r == 0` and to `tail_insert` otherwise. -/
def insertStep (st : PyBST) (k : Int) (v : Option Int) (r : Nat) (fuel : Nat) :
    Option (Except PyErr PyBST) :=
  if r = 0 then rootInsertNew st k v fuel
  else (tailInsertNew st k v fuel).map Except.ok

/-- The probability that `insert` dispatches to `root_insert` on a tree of
size `n`: one outcome (`r = 0`) among the `insertBound n + 1` equally likely
values of `randint(0, insertBound n)`. -/
def rootChance (n : Nat) : ℚ := 1 / (insertBound n + 1)

/-- The expected state after `left_rotate` of node `c` whose right child is
`r`: used to state the rotation theorems.  `r` takes `c`'s parent and gains
`c` as left child, `c` hangs below `r` keeping `r`'s old left subtree as its
right child, the parent (if any) points at `r` on the side `c` occupied, the
old inner grandchild (if any) is re-parented to `c`, and the root pointer
moves to `r` when `c` was the root. -/
def leftRotSpec (st : PyBST) (c r : Nat) : PyBST :=
  let po := (st.nodes c).parent
  let rl := (st.nodes r).left
  let f0 := st.nodes
  let f1 := Function.update f0 r { f0 r with parent := po, left := some c }
  let f2 := Function.update f1 c { f0 c with parent := some r, right := rl }
  let f3 :=
    match po with
    | some p =>
      if (st.nodes p).left = some c then Function.update f2 p { f2 p with left := some r }
      else Function.update f2 p { f2 p with right := some r }
    | none => f2
  let f4 :=
    match rl with
    | some q => Function.update f3 q { f3 q with parent := some c }
    | none => f3
  { nodes := f4, root := if po = none then some r else st.root, n := st.n, next := st.next }

/-- The expected state after `right_rotate` of node `c` whose left child is
`l`, mirror image of `leftRotSpec`. -/
def rightRotSpec (st : PyBST) (c l : Nat) : PyBST :=
  let po := (st.nodes c).parent
  let lr := (st.nodes l).right
  let f0 := st.nodes
  let f1 := Function.update f0 l { f0 l with parent := po, right := some c }
  let f2 := Function.update f1 c { f0 c with parent := some l, left := lr }
  let f3 :=
    match po with
    | some p =>
      if (st.nodes p).left = some c then Function.update f2 p { f2 p with left := some l }
      else Function.update f2 p { f2 p with right := some l }
    | none => f2
  let f4 :=
    match lr with
    | some q => Function.update f3 q { f3 q with parent := some c }
    | none => f3
  { nodes := f4, root := if po = none then some l else st.root, n := st.n, next := st.next }

/-- A concrete three-node tree used as a test vector: node 0 (key 2, the root)
with left child node 1 (key 1) and right child node 2 (key 3). -/
def triSt : PyBST :=
  { nodes := fun i =>
      if i = 0 then { key := 2, value := none, parent := none, left := some 1, right := some 2 }
      else if i = 1 then { key := 1, value := none, parent := some 0, left := none, right := none }
      else if i = 2 then { key := 3, value := none, parent := some 0, left := none, right := none }
      else newNode 0 none,
    root := some 0, n := 3, next := 3 }

/-! ### Functional inductive-tree model

A functional reading of the same source algorithms on an inductive binary
tree, used for the universally quantified claims C1 and C5.  Parent pointers
are implicit (the tree shape); each function mirrors the corresponding Python
method on the subtree it manipulates. -/

/-- A binary tree of `Int` keys: the shape reachable through `left`/`right`
links from a node (values are irrelevant to ordering and rank). -/
inductive BTree where
  | nil
  | node (l : BTree) (k : Int) (r : BTree)
  deriving Repr, DecidableEq

/-- In-order key sequence (`BST._in_order_traversal`, which prints left
subtree, node, right subtree; read back as a list). -/
def toList : BTree → List Int
  | .nil => []
  | .node l k r => toList l ++ k :: toList r

/-- `BST.tail_insert` (lines 154-191): walk from the root, going left when
`x.key < c.key` and right otherwise, and attach the new key as a leaf at the
empty slot reached. -/
def tinsert : BTree → Int → BTree
  | .nil, x => .node .nil x .nil
  | .node l k r, x =>
    if x < k then .node (tinsert l x) k r else .node l k (tinsert r x)

/-- `BST._root_insert` (lines 214-226): insert by the same walk, then rotate
the inserted node up at each level (`right_rotate` after a left-subtree
insertion, `left_rotate` after a right-subtree insertion).  The `.nil` match
arms are unreachable: `_root_insert` never returns `None` (see
`rinsert_ne_nil`); on `None` the Python rotation would raise. -/
def rinsert : BTree → Int → BTree
  | .nil, x => .node .nil x .nil
  | .node l k r, x =>
    if x < k then
      match rinsert l x with
      | .node ll lk lr => .node ll lk (.node lr k r)
      | .nil => .nil
    else
      match rinsert r x with
      | .node rl rk rr => .node (.node l k rl) rk rr
      | .nil => .nil

/-- One insertion call in a sequence: `true` selects `root_insert`, `false`
selects `tail_insert` (the probabilistic `insert` always dispatches to one of
the two). -/
def insStep (t : BTree) (p : Int × Bool) : BTree :=
  if p.2 then rinsert t p.1 else tinsert t p.1

/-- The tree built by a sequence of successful inserts starting from the empty
tree. -/
def buildTree (ops : List (Int × Bool)) : BTree :=
  ops.foldl insStep .nil

/-- The search-order invariant maintained by both insertion strategies: every
key in a left subtree is `≤` the node key and every key in a right subtree is
`≥` it.  (The strict-left version holds for `tail_insert` alone but
`root_insert` can place a duplicate of the root key in the left subtree; this
weaker invariant still forces the in-order traversal to be non-decreasing.) -/
def SInv : BTree → Prop
  | .nil => True
  | .node l k r =>
      SInv l ∧ SInv r ∧ (∀ a ∈ toList l, a ≤ k) ∧ (∀ a ∈ toList r, k ≤ a)

/-- `BST._rank` (lines 301-308): visit every node, incrementing the
accumulator when the node key is strictly less than the query key; the left
subtree is processed before the right. -/
def rankAcc : BTree → Int → Int → Int
  | .nil, _, r => r
  | .node l k rt, key, r =>
    let r1 := if k < key then r + 1 else r
    let r2 := rankAcc l key r1
    rankAcc rt key r2

/-- `BST.rank` (lines 293-299): `0` on an empty tree, else `_rank(root, key, 0)`. -/
def rankT (t : BTree) (key : Int) : Int :=
  match t with
  | .nil => 0
  | .node l k r => rankAcc (.node l k r) key 0

/-- Claim C9 counterexample: on a node with children, `has_children` returns
the left child node object and `has_two_children` returns the right child node
object, and on a childless node `has_one_child` returns `None` — none of these
is an actual boolean value, refuting "each returning an actual boolean
value". -/
theorem C9_not_actual_booleans :
    hasChildren triSt 0 = PyVal.vnode 1 ∧
    hasTwoChildren triSt 0 = PyVal.vnode 2 ∧
    hasOneChild triSt 1 = PyVal.vnone ∧
    (∀ b : Bool, hasChildren triSt 0 ≠ PyVal.vbool b) ∧
    (∀ b : Bool, hasTwoChildren triSt 0 ≠ PyVal.vbool b) ∧
    (∀ b : Bool, hasOneChild triSt 1 ≠ PyVal.vbool b) := by
  refine ⟨rfl, rfl, rfl, ?_, ?_, ?_⟩ <;> decide

/-- Claim C9 (amended): `has_children`, `has_one_child` and `has_two_children`
classify the node's current left/right child state correctly under Python
truthiness — truthy iff at least one child, exactly one child, and both
children respectively — but the returned values are Python truthy/falsy
values (node objects or `None`), not always actual booleans. -/
theorem C9_truthiness_classification (st : PyBST) (u : Nat) :
    (hasChildren st u).truthy
      = ((st.nodes u).left.isSome || (st.nodes u).right.isSome) ∧
    (hasOneChild st u).truthy
      = (((st.nodes u).left.isSome && !(st.nodes u).right.isSome)
          || (!(st.nodes u).left.isSome && (st.nodes u).right.isSome)) ∧
    (hasTwoChildren st u).truthy
      = ((st.nodes u).left.isSome && (st.nodes u).right.isSome) := by
  cases hl : (st.nodes u).left <;> cases hr : (st.nodes u).right <;>
    simp [hasChildren, hasOneChild, hasTwoChildren, pyOr, pyAnd, pyNot,
      optToVal, PyVal.truthy, hl, hr]

/-- Claim C10: for a node with a parent, `is_left_child` returns `True`/`False`
by identity comparison only when the parent's left link is set, returns `None`
(neither `True` nor `False`) when the parent's left link is empty, and
symmetrically for `is_right_child` with the parent's right link; only a node
with no parent raises the documented `AttributeError`. -/
theorem C10_child_query_none (st : PyBST) :
    (∀ u, (st.nodes u).parent = none →
      isLeftChild st u = .error .attributeError ∧
      isRightChild st u = .error .attributeError) ∧
    (∀ u p, (st.nodes u).parent = some p → (st.nodes p).left = none →
      isLeftChild st u = .ok none) ∧
    (∀ u p l, (st.nodes u).parent = some p → (st.nodes p).left = some l →
      isLeftChild st u = .ok (some (nodeEq l u))) ∧
    (∀ u p, (st.nodes u).parent = some p → (st.nodes p).right = none →
      isRightChild st u = .ok none) ∧
    (∀ u p r, (st.nodes u).parent = some p → (st.nodes p).right = some r →
      isRightChild st u = .ok (some (nodeEq r u))) := by
  refine ⟨fun u h => ?_, fun u p hp hl => ?_, fun u p l hp hl => ?_,
    fun u p hp hr => ?_, fun u p r hp hr => ?_⟩ <;>
    simp [isLeftChild, isRightChild, *]

/-- Claim C10 witness: concrete instances on the three-node tree — node 1 is
the left child of node 0 and node 2 is not; on a tree where the parent's left
link is empty the query returns `None`; the root raises. -/
theorem C10_child_query_none_witness :
    isLeftChild triSt 1 = .ok (some true) ∧
    isRightChild triSt 1 = .ok (some false) ∧
    isLeftChild triSt 0 = .error .attributeError := by
  refine ⟨?_, ?_, ?_⟩
  · exact (C10_child_query_none triSt).2.2.1 1 0 1 rfl rfl
  · exact (C10_child_query_none triSt).2.2.2.2 1 0 2 rfl rfl
  · exact ((C10_child_query_none triSt).1 0 rfl).1

theorem toList_tinsert_perm (t : BTree) (x : Int) :
    List.Perm (toList (tinsert t x)) (x :: toList t) := by
  induction t with
  | nil => simp [tinsert, toList]
  | node l k r ihl ihr =>
    by_cases h : x < k
    · simp only [tinsert, if_pos h, toList]
      exact ihl.append_right (k :: toList r)
    · simp only [tinsert, if_neg h, toList]
      have p1 : List.Perm (toList l ++ k :: toList (tinsert r x))
          (toList l ++ k :: x :: toList r) :=
        List.Perm.append_left (toList l) (ihr.cons k)
      have p2 : List.Perm (toList l ++ k :: x :: toList r)
          (x :: (toList l ++ k :: toList r)) := by
        have h3 := @List.perm_middle _ x (toList l ++ [k]) (toList r)
        simpa using h3
      exact p1.trans p2

theorem SInv_tinsert (t : BTree) (x : Int) (h : SInv t) : SInv (tinsert t x) := by
  induction t with
  | nil =>
    refine ⟨trivial, trivial, ?_, ?_⟩ <;> intro a ha <;> simp [toList] at ha
  | node l k r ihl ihr =>
    obtain ⟨hl, hr, hbl, hbr⟩ := h
    by_cases hx : x < k
    · simp only [tinsert, if_pos hx, SInv]
      refine ⟨ihl hl, hr, ?_, hbr⟩
      intro a ha
      rcases List.mem_cons.mp ((toList_tinsert_perm l x).mem_iff.mp ha) with rfl | hmem
      · exact le_of_lt hx
      · exact hbl a hmem
    · simp only [tinsert, if_neg hx, SInv]
      refine ⟨hl, ihr hr, hbl, ?_⟩
      intro a ha
      rcases List.mem_cons.mp ((toList_tinsert_perm r x).mem_iff.mp ha) with rfl | hmem
      · exact not_lt.mp hx
      · exact hbr a hmem

theorem rinsert_ne_nil (t : BTree) (x : Int) : rinsert t x ≠ BTree.nil := by
  induction t with
  | nil => simp [rinsert]
  | node l k r ihl ihr =>
    by_cases hx : x < k
    · simp only [rinsert, if_pos hx]
      cases hrw : rinsert l x with
      | nil => exact absurd hrw ihl
      | node ll lk lr => simp
    · simp only [rinsert, if_neg hx]
      cases hrw : rinsert r x with
      | nil => exact absurd hrw ihr
      | node rl rk rr => simp

theorem toList_rinsert (t : BTree) (x : Int) :
    toList (rinsert t x) = toList (tinsert t x) := by
  induction t with
  | nil => rfl
  | node l k r ihl ihr =>
    by_cases hx : x < k
    · simp only [rinsert, tinsert, if_pos hx]
      cases hrw : rinsert l x with
      | nil => exact absurd hrw (rinsert_ne_nil l x)
      | node ll lk lr =>
        have heq : toList (BTree.node ll lk lr) = toList (tinsert l x) := hrw ▸ ihl
        simp only [toList] at heq ⊢
        rw [← heq]
        simp
    · simp only [rinsert, tinsert, if_neg hx]
      cases hrw : rinsert r x with
      | nil => exact absurd hrw (rinsert_ne_nil r x)
      | node rl rk rr =>
        have heq : toList (BTree.node rl rk rr) = toList (tinsert r x) := hrw ▸ ihr
        simp only [toList] at heq ⊢
        rw [← heq]
        simp

theorem mem_toList_rinsert (t : BTree) (x a : Int)
    (ha : a ∈ toList (rinsert t x)) : a = x ∨ a ∈ toList t := by
  rw [toList_rinsert] at ha
  exact List.mem_cons.mp ((toList_tinsert_perm t x).mem_iff.mp ha)

theorem SInv_rinsert (t : BTree) (x : Int) (h : SInv t) : SInv (rinsert t x) := by
  induction t with
  | nil =>
    refine ⟨trivial, trivial, ?_, ?_⟩ <;> intro a ha <;> simp [toList] at ha
  | node l k r ihl ihr =>
    obtain ⟨hl, hr, hbl, hbr⟩ := h
    by_cases hx : x < k
    · simp only [rinsert, if_pos hx]
      cases hrw : rinsert l x with
      | nil => exact absurd hrw (rinsert_ne_nil l x)
      | node ll lk lr =>
        obtain ⟨hll, hlr, hbll, hblr⟩ : SInv (BTree.node ll lk lr) := hrw ▸ ihl hl
        have hub : ∀ a, a ∈ toList (BTree.node ll lk lr) → a ≤ k := by
          intro a ha
          rcases mem_toList_rinsert l x a (hrw ▸ ha) with rfl | hmem
          · exact le_of_lt hx
          · exact hbl a hmem
        have hlk : lk ≤ k := hub lk (by simp [toList])
        refine ⟨hll, ⟨hlr, hr, ?_, hbr⟩, hbll, ?_⟩
        · intro a ha
          exact hub a (by simp [toList]; exact Or.inr (Or.inr ha))
        · intro a ha
          simp only [toList, List.mem_append, List.mem_cons] at ha
          rcases ha with hmem | rfl | hmem
          · exact hblr a hmem
          · exact hlk
          · exact hlk.trans (hbr a hmem)
    · simp only [rinsert, if_neg hx]
      cases hrw : rinsert r x with
      | nil => exact absurd hrw (rinsert_ne_nil r x)
      | node rl rk rr =>
        obtain ⟨hrl, hrr, hbrl, hbrr⟩ : SInv (BTree.node rl rk rr) := hrw ▸ ihr hr
        have hlb : ∀ a, a ∈ toList (BTree.node rl rk rr) → k ≤ a := by
          intro a ha
          rcases mem_toList_rinsert r x a (hrw ▸ ha) with rfl | hmem
          · exact not_lt.mp hx
          · exact hbr a hmem
        have hrk : k ≤ rk := hlb rk (by simp [toList])
        refine ⟨⟨hl, hrl, hbl, ?_⟩, hrr, ?_, hbrr⟩
        · intro a ha
          exact hlb a (by simp [toList]; exact Or.inl ha)
        · intro a ha
          simp only [toList, List.mem_append, List.mem_cons] at ha
          rcases ha with hmem | rfl | hmem
          · exact (hbl a hmem).trans hrk
          · exact hrk
          · exact hbrl a hmem

theorem SInv_sorted (t : BTree) (h : SInv t) :
    (toList t).Sorted (fun a b : Int => a ≤ b) := by
  induction t with
  | nil => simp [toList]
  | node l k r ihl ihr =>
    obtain ⟨hl, hr, hbl, hbr⟩ := h
    simp only [toList]
    refine List.pairwise_append.mpr ⟨ihl hl, ?_, ?_⟩
    · exact List.sorted_cons.mpr ⟨hbr, ihr hr⟩
    · intro a ha b hb
      rcases List.mem_cons.mp hb with rfl | hmem
      · exact hbl a ha
      · exact (hbl a ha).trans (hbr b hmem)

theorem buildTree_aux (ops : List (Int × Bool)) :
    ∀ t : BTree, SInv t →
      SInv (ops.foldl insStep t) ∧
      List.Perm (toList (ops.foldl insStep t)) (ops.map Prod.fst ++ toList t) := by
  induction ops with
  | nil => intro t ht; exact ⟨ht, List.Perm.refl _⟩
  | cons op rest ih =>
    intro t ht
    have h1 : SInv (insStep t op) := by
      cases hb : op.2 <;> simp only [insStep, hb, if_true, if_false]
      · exact SInv_tinsert t op.1 ht
      · exact SInv_rinsert t op.1 ht
    have hperm1 : List.Perm (toList (insStep t op)) (op.1 :: toList t) := by
      cases hb : op.2 <;> simp only [insStep, hb, if_true, if_false]
      · exact toList_tinsert_perm t op.1
      · rw [toList_rinsert]; exact toList_tinsert_perm t op.1
    obtain ⟨hinv, hperm⟩ := ih (insStep t op) h1
    refine ⟨by simpa using hinv, ?_⟩
    have step1 : List.Perm (toList ((op :: rest).foldl insStep t))
        (rest.map Prod.fst ++ (op.1 :: toList t)) := by
      simpa using hperm.trans (List.Perm.append_left _ hperm1)
    have step2 : List.Perm (rest.map Prod.fst ++ (op.1 :: toList t))
        (op.1 :: (rest.map Prod.fst ++ toList t)) := List.perm_middle
    simpa using step1.trans step2

/-- Claim C1: for every tree built by any sequence of successful
`insert`/`tail_insert`/`root_insert` calls starting from the empty tree
(each call's strategy encoded by the boolean of the pair, `insert` always
dispatching to one of the two), the in-order traversal is non-decreasing and
is a permutation of the multiset of inserted keys, under the tie-break that a
key strictly less than the current node's key goes left and any other key goes
right. -/
theorem C1_insert_inorder_sorted (ops : List (Int × Bool)) :
    (toList (buildTree ops)).Sorted (fun a b : Int => a ≤ b) ∧
    List.Perm (toList (buildTree ops)) (ops.map Prod.fst) := by
  obtain ⟨hinv, hperm⟩ := buildTree_aux ops .nil trivial
  refine ⟨SInv_sorted _ hinv, ?_⟩
  simpa [toList] using hperm

theorem rankAcc_eq (t : BTree) (key : Int) : ∀ r : Int,
    rankAcc t key r
      = r + ((toList t).countP (fun a => decide (a < key)) : Int) := by
  induction t with
  | nil => simp [rankAcc, toList]
  | node l k rt ihl ihr =>
    intro r
    simp only [rankAcc, toList]
    rw [ihr, ihl, List.countP_append, List.countP_cons]
    by_cases hk : k < key <;> simp [hk] <;> ring

/-- Claim C5: for every tree and every query key, `rank` returns the number of
nodes in the tree whose key is strictly less than the query key; on the empty
tree it returns `0`, and nodes whose key equals the query key (duplicates of
it) are not counted, since only strictly smaller keys satisfy the count
predicate. -/
theorem C5_rank_counts_strictly_less (t : BTree) (key : Int) :
    rankT t key = ((toList t).countP (fun a => decide (a < key)) : Int) ∧
    rankT BTree.nil key = 0 ∧
    ((toList t).filter (fun a => decide (a = key))).countP
        (fun a => decide (a < key)) = 0 := by
  refine ⟨?_, rfl, ?_⟩
  · cases t with
    | nil => simp [rankT, toList]
    | node l k r => simpa using rankAcc_eq (.node l k r) key 0
  · rw [List.countP_eq_zero]
    intro a ha
    have := List.of_mem_filter ha
    simp only [decide_eq_true_eq] at this ⊢
    omega

/-- Claim C8: `insert` performs no third behaviour — it dispatches to
`root_insert` exactly when the sampled `randint(0, size * 3 // 8)` value is 0
and to `tail_insert` otherwise; exactly one of the `insertBound n + 1` equally
likely sample values selects `root_insert`, so the dispatch probability
`rootChance n = 1 / (3n/8 + 1)` is proportional to `1/n` (it lies between
`(8/11)/n` and `(8/3)/n` for every `n ≥ 1`); and on an empty tree the sample
is forced to 0 and the insert initialises the root directly, bypassing both
strategies' walk logic. -/
theorem C8_insert_dispatch :
    (∀ st k v r fuel, insertStep st k v r fuel = rootInsertNew st k v fuel ∨
        insertStep st k v r fuel = (tailInsertNew st k v fuel).map Except.ok) ∧
    (∀ n : Nat, (List.range (insertBound n + 1)).countP (fun r => r == 0) = 1) ∧
    (∀ n : Nat, 1 ≤ n →
      (8 : ℚ) / (11 * n) ≤ rootChance n ∧ rootChance n ≤ 8 / (3 * n)) ∧
    (∀ (k : Int) (v : Option Int) (r fuel : Nat), r ≤ insertBound 0 →
      r = 0 ∧
      ∃ st1, insertStep bstEmpty k v r fuel = some (.ok st1) ∧
        st1.root = some 0 ∧ st1.n = 1 ∧ (st1.nodes 0).key = k ∧
        (st1.nodes 0).value = v ∧ (st1.nodes 0).parent = none ∧
        (st1.nodes 0).left = none ∧ (st1.nodes 0).right = none) := by
  refine ⟨fun st k v r fuel => ?_, fun n => ?_, fun n hn => ?_, fun k v r fuel hr => ?_⟩
  · by_cases h : r = 0
    · left; rw [insertStep, if_pos h]
    · right; rw [insertStep, if_neg h]
  · rw [List.range_succ_eq_map, List.countP_cons]
    simp only [List.countP_map]
    have hz : List.countP ((fun r => r == 0) ∘ Nat.succ) (List.range (insertBound n)) = 0 := by
      rw [List.countP_eq_zero]
      intro a _
      simp [Function.comp]
    simp [hz]
  · have hb8 : ((insertBound n : ℚ) + 1) > 0 := by positivity
    have hn0 : (0 : ℚ) < n := by exact_mod_cast hn
    have key1 : 3 * n < 8 * (insertBound n + 1) := by
      have hdm := Nat.div_add_mod (n * 3) 8
      have hm : (n * 3) % 8 < 8 := Nat.mod_lt _ (by norm_num)
      rw [insertBound]
      omega
    have key2 : 8 * (insertBound n + 1) ≤ 11 * n := by
      have hle := Nat.div_mul_le_self (n * 3) 8
      rw [insertBound]
      omega
    have key1q : (3 : ℚ) * n < 8 * ((insertBound n : ℚ) + 1) := by exact_mod_cast key1
    have key2q : (8 : ℚ) * ((insertBound n : ℚ) + 1) ≤ 11 * n := by exact_mod_cast key2
    constructor
    · rw [rootChance, div_le_div_iff (by positivity) hb8]
      linarith
    · rw [rootChance, div_le_div_iff hb8 (by positivity)]
      linarith
  · obtain rfl : r = 0 := Nat.le_zero.mp hr
    exact ⟨rfl, _, rfl, rfl, rfl, rfl, rfl, rfl, rfl, rfl⟩

/-- Claim C8 witness: concrete discharges — the proportionality bounds at a
tree of size 3, and the empty-tree insert of key 42 with the forced sample 0. -/
theorem C8_insert_dispatch_witness :
    ((8 : ℚ) / (11 * 3) ≤ rootChance 3 ∧ rootChance 3 ≤ 8 / (3 * 3)) ∧
    (0 = 0 ∧ ∃ st1, insertStep bstEmpty 42 none 0 1 = some (.ok st1) ∧
      st1.root = some 0 ∧ st1.n = 1 ∧ (st1.nodes 0).key = 42 ∧
      (st1.nodes 0).value = none ∧ (st1.nodes 0).parent = none ∧
      (st1.nodes 0).left = none ∧ (st1.nodes 0).right = none) :=
  ⟨C8_insert_dispatch.2.2.1 3 (by norm_num),
   C8_insert_dispatch.2.2.2 42 none 0 1 (by decide)⟩



theorem PyBST.eqOfParts (a b : PyBST) (h1 : ∀ i, a.nodes i = b.nodes i)
    (h2 : a.root = b.root) (h3 : a.n = b.n) (h4 : a.next = b.next) : a = b := by
  cases a; cases b
  simp only [PyBST.mk.injEq]
  exact ⟨funext h1, h2, h3, h4⟩

theorem pynode_rebuild (nd : PyNode) (p l r : Option Nat)
    (hp : p = nd.parent) (hl : l = nd.left) (hr : r = nd.right) :
    ({ key := nd.key, value := nd.value, parent := p, left := l, right := r } : PyNode) = nd := by
  cases nd
  simp_all

theorem leftRotate_run (st : PyBST) (c r : Nat)
    (hcr : (st.nodes c).right = some r)
    (hrc : r ≠ c)
    (hp : ∀ p, (st.nodes c).parent = some p → p ≠ c ∧ p ≠ r)
    (hq : ∀ q, (st.nodes r).left = some q → q ≠ c ∧ q ≠ r ∧
      ∀ p, (st.nodes c).parent = some p → q ≠ p) :
    leftRotateNode st c = .ok (leftRotSpec st c r, some r) := by
  have hcr' : c ≠ r := Ne.symm hrc
  rcases hpo : (st.nodes c).parent with _ | p
  · rcases hrl : (st.nodes r).left with _ | q
    · simp only [leftRotateNode, leftRotStepA, leftRotStepB, leftRotStepC, leftRotStepD,
        leftRotStepE, leftRotStepF, leftRotSpec, setNode, Function.update_apply, hcr,
        hpo, hrl, hrc, hcr', if_true, if_false, eq_self_iff_true, ite_true, ite_false]
      refine congrArg Except.ok (Prod.ext_iff.mpr ⟨PyBST.eqOfParts _ _ (fun i => ?_) rfl rfl rfl, rfl⟩)
      by_cases hic : i = c
      · subst hic; simp [Function.update_apply, hcr']
      · by_cases hir : i = r
        · subst hir; simp [Function.update_apply, hrc]
        · simp [Function.update_apply, hic, hir]
    · obtain ⟨hqc, hqr, -⟩ := hq q hrl
      have hqc' : c ≠ q := Ne.symm hqc
      have hqr' : r ≠ q := Ne.symm hqr
      simp only [leftRotateNode, leftRotStepA, leftRotStepB, leftRotStepC, leftRotStepD,
        leftRotStepE, leftRotStepF, leftRotSpec, setNode, Function.update_apply, hcr,
        hpo, hrl, hrc, hcr', hqc, hqr, hqc', hqr', if_true, if_false, eq_self_iff_true,
        ite_true, ite_false]
      refine congrArg Except.ok (Prod.ext_iff.mpr ⟨PyBST.eqOfParts _ _ (fun i => ?_) rfl rfl rfl, rfl⟩)
      by_cases hic : i = c
      · subst hic; simp [Function.update_apply, hcr', hqc, hqc']
      · by_cases hir : i = r
        · subst hir; simp [Function.update_apply, hrc, hqr, hqr']
        · by_cases hiq : i = q
          · subst hiq; simp [Function.update_apply, hqc, hqr, hqc', hqr']
          · simp [Function.update_apply, hic, hir, hiq]
  · obtain ⟨hpc, hpr⟩ := hp p hpo
    have hpc' : c ≠ p := Ne.symm hpc
    have hpr' : r ≠ p := Ne.symm hpr
    rcases hrl : (st.nodes r).left with _ | q
    · by_cases hside : (st.nodes p).left = some c
      · simp only [leftRotateNode, leftRotStepA, leftRotStepB, leftRotStepC, leftRotStepD,
          leftRotStepE, leftRotStepF, leftRotSpec, setNode, Function.update_apply, hcr,
          hpo, hrl, hrc, hcr', hpc, hpr, hpc', hpr', hside, if_true, if_false,
          eq_self_iff_true, ite_true, ite_false]
        refine congrArg Except.ok (Prod.ext_iff.mpr ⟨PyBST.eqOfParts _ _ (fun i => ?_) rfl rfl rfl, rfl⟩)
        by_cases hic : i = c
        · subst hic; simp [Function.update_apply, hcr', hpc, hpc']
        · by_cases hir : i = r
          · subst hir; simp [Function.update_apply, hrc, hpr, hpr']
          · by_cases hip : i = p
            · subst hip; simp [Function.update_apply, hpc, hpr, hpc', hpr']
            · simp [Function.update_apply, hic, hir, hip]
      · simp only [leftRotateNode, leftRotStepA, leftRotStepB, leftRotStepC, leftRotStepD,
          leftRotStepE, leftRotStepF, leftRotSpec, setNode, Function.update_apply, hcr,
          hpo, hrl, hrc, hcr', hpc, hpr, hpc', hpr', hside, if_true, if_false,
          eq_self_iff_true, ite_true, ite_false]
        refine congrArg Except.ok (Prod.ext_iff.mpr ⟨PyBST.eqOfParts _ _ (fun i => ?_) rfl rfl rfl, rfl⟩)
        by_cases hic : i = c
        · subst hic; simp [Function.update_apply, hcr', hpc, hpc']
        · by_cases hir : i = r
          · subst hir; simp [Function.update_apply, hrc, hpr, hpr']
          · by_cases hip : i = p
            · subst hip; simp [Function.update_apply, hpc, hpr, hpc', hpr']
            · simp [Function.update_apply, hic, hir, hip]
    · obtain ⟨hqc, hqr, hqp0⟩ := hq q hrl
      have hqp : q ≠ p := hqp0 p hpo
      have hqc' : c ≠ q := Ne.symm hqc
      have hqr' : r ≠ q := Ne.symm hqr
      have hqp' : p ≠ q := Ne.symm hqp
      by_cases hside : (st.nodes p).left = some c
      · simp only [leftRotateNode, leftRotStepA, leftRotStepB, leftRotStepC, leftRotStepD,
          leftRotStepE, leftRotStepF, leftRotSpec, setNode, Function.update_apply, hcr,
          hpo, hrl, hrc, hcr', hpc, hpr, hpc', hpr', hqc, hqr, hqp, hqc', hqr', hqp',
          hside, if_true, if_false, eq_self_iff_true, ite_true, ite_false]
        refine congrArg Except.ok (Prod.ext_iff.mpr ⟨PyBST.eqOfParts _ _ (fun i => ?_) rfl rfl rfl, rfl⟩)
        by_cases hic : i = c
        · subst hic; simp [Function.update_apply, hcr', hpc, hqc, hpc', hqc']
        · by_cases hir : i = r
          · subst hir; simp [Function.update_apply, hrc, hpr, hqr, hpr', hqr']
          · by_cases hip : i = p
            · subst hip; simp [Function.update_apply, hpc, hpr, hqp, hpc', hpr', hqp']
            · by_cases hiq : i = q
              · subst hiq; simp [Function.update_apply, hqc, hqr, hqp, hqc', hqr', hqp']
              · simp [Function.update_apply, hic, hir, hip, hiq]
      · simp only [leftRotateNode, leftRotStepA, leftRotStepB, leftRotStepC, leftRotStepD,
          leftRotStepE, leftRotStepF, leftRotSpec, setNode, Function.update_apply, hcr,
          hpo, hrl, hrc, hcr', hpc, hpr, hpc', hpr', hqc, hqr, hqp, hqc', hqr', hqp',
          hside, if_true, if_false, eq_self_iff_true, ite_true, ite_false]
        refine congrArg Except.ok (Prod.ext_iff.mpr ⟨PyBST.eqOfParts _ _ (fun i => ?_) rfl rfl rfl, rfl⟩)
        by_cases hic : i = c
        · subst hic; simp [Function.update_apply, hcr', hpc, hqc, hpc', hqc']
        · by_cases hir : i = r
          · subst hir; simp [Function.update_apply, hrc, hpr, hqr, hpr', hqr']
          · by_cases hip : i = p
            · subst hip; simp [Function.update_apply, hpc, hpr, hqp, hpc', hpr', hqp']
            · by_cases hiq : i = q
              · subst hiq; simp [Function.update_apply, hqc, hqr, hqp, hqc', hqr', hqp']
              · simp [Function.update_apply, hic, hir, hip, hiq]

theorem rightRotate_run (st : PyBST) (c l : Nat)
    (hcl : (st.nodes c).left = some l)
    (hlc : l ≠ c)
    (hp : ∀ p, (st.nodes c).parent = some p → p ≠ c ∧ p ≠ l)
    (hq : ∀ q, (st.nodes l).right = some q → q ≠ c ∧ q ≠ l ∧
      ∀ p, (st.nodes c).parent = some p → q ≠ p) :
    rightRotateNode st c = .ok (rightRotSpec st c l, some l) := by
  have hcl' : c ≠ l := Ne.symm hlc
  rcases hpo : (st.nodes c).parent with _ | p
  · rcases hlr : (st.nodes l).right with _ | q
    · simp only [rightRotateNode, rightRotStepA, rightRotStepB, rightRotStepC, rightRotStepD,
        rightRotStepE, rightRotStepF, rightRotSpec, setNode, Function.update_apply, hcl,
        hpo, hlr, hlc, hcl', if_true, if_false, eq_self_iff_true, ite_true, ite_false]
      refine congrArg Except.ok (Prod.ext_iff.mpr ⟨PyBST.eqOfParts _ _ (fun i => ?_) rfl rfl rfl, rfl⟩)
      by_cases hic : i = c
      · subst hic; simp [Function.update_apply, hcl']
      · by_cases hil : i = l
        · subst hil; simp [Function.update_apply, hlc]
        · simp [Function.update_apply, hic, hil]
    · obtain ⟨hqc, hql, -⟩ := hq q hlr
      have hqc' : c ≠ q := Ne.symm hqc
      have hql' : l ≠ q := Ne.symm hql
      simp only [rightRotateNode, rightRotStepA, rightRotStepB, rightRotStepC, rightRotStepD,
        rightRotStepE, rightRotStepF, rightRotSpec, setNode, Function.update_apply, hcl,
        hpo, hlr, hlc, hcl', hqc, hql, hqc', hql', if_true, if_false, eq_self_iff_true,
        ite_true, ite_false]
      refine congrArg Except.ok (Prod.ext_iff.mpr ⟨PyBST.eqOfParts _ _ (fun i => ?_) rfl rfl rfl, rfl⟩)
      by_cases hic : i = c
      · subst hic; simp [Function.update_apply, hcl', hqc, hqc']
      · by_cases hil : i = l
        · subst hil; simp [Function.update_apply, hlc, hql, hql']
        · by_cases hiq : i = q
          · subst hiq; simp [Function.update_apply, hqc, hql, hqc', hql']
          · simp [Function.update_apply, hic, hil, hiq]
  · obtain ⟨hpc, hpl⟩ := hp p hpo
    have hpc' : c ≠ p := Ne.symm hpc
    have hpl' : l ≠ p := Ne.symm hpl
    rcases hlr : (st.nodes l).right with _ | q
    · by_cases hside : (st.nodes p).left = some c
      · simp only [rightRotateNode, rightRotStepA, rightRotStepB, rightRotStepC, rightRotStepD,
          rightRotStepE, rightRotStepF, rightRotSpec, setNode, Function.update_apply, hcl,
          hpo, hlr, hlc, hcl', hpc, hpl, hpc', hpl', hside, if_true, if_false,
          eq_self_iff_true, ite_true, ite_false]
        refine congrArg Except.ok (Prod.ext_iff.mpr ⟨PyBST.eqOfParts _ _ (fun i => ?_) rfl rfl rfl, rfl⟩)
        by_cases hic : i = c
        · subst hic; simp [Function.update_apply, hcl', hpc, hpc']
        · by_cases hil : i = l
          · subst hil; simp [Function.update_apply, hlc, hpl, hpl']
          · by_cases hip : i = p
            · subst hip; simp [Function.update_apply, hpc, hpl, hpc', hpl']
            · simp [Function.update_apply, hic, hil, hip]
      · simp only [rightRotateNode, rightRotStepA, rightRotStepB, rightRotStepC, rightRotStepD,
          rightRotStepE, rightRotStepF, rightRotSpec, setNode, Function.update_apply, hcl,
          hpo, hlr, hlc, hcl', hpc, hpl, hpc', hpl', hside, if_true, if_false,
          eq_self_iff_true, ite_true, ite_false]
        refine congrArg Except.ok (Prod.ext_iff.mpr ⟨PyBST.eqOfParts _ _ (fun i => ?_) rfl rfl rfl, rfl⟩)
        by_cases hic : i = c
        · subst hic; simp [Function.update_apply, hcl', hpc, hpc']
        · by_cases hil : i = l
          · subst hil; simp [Function.update_apply, hlc, hpl, hpl']
          · by_cases hip : i = p
            · subst hip; simp [Function.update_apply, hpc, hpl, hpc', hpl']
            · simp [Function.update_apply, hic, hil, hip]
    · obtain ⟨hqc, hql, hqp0⟩ := hq q hlr
      have hqp : q ≠ p := hqp0 p hpo
      have hqc' : c ≠ q := Ne.symm hqc
      have hql' : l ≠ q := Ne.symm hql
      have hqp' : p ≠ q := Ne.symm hqp
      by_cases hside : (st.nodes p).left = some c
      · simp only [rightRotateNode, rightRotStepA, rightRotStepB, rightRotStepC, rightRotStepD,
          rightRotStepE, rightRotStepF, rightRotSpec, setNode, Function.update_apply, hcl,
          hpo, hlr, hlc, hcl', hpc, hpl, hpc', hpl', hqc, hql, hqp, hqc', hql', hqp',
          hside, if_true, if_false, eq_self_iff_true, ite_true, ite_false]
        refine congrArg Except.ok (Prod.ext_iff.mpr ⟨PyBST.eqOfParts _ _ (fun i => ?_) rfl rfl rfl, rfl⟩)
        by_cases hic : i = c
        · subst hic; simp [Function.update_apply, hcl', hpc, hqc, hpc', hqc']
        · by_cases hil : i = l
          · subst hil; simp [Function.update_apply, hlc, hpl, hql, hpl', hql']
          · by_cases hip : i = p
            · subst hip; simp [Function.update_apply, hpc, hpl, hqp, hpc', hpl', hqp']
            · by_cases hiq : i = q
              · subst hiq; simp [Function.update_apply, hqc, hql, hqp, hqc', hql', hqp']
              · simp [Function.update_apply, hic, hil, hip, hiq]
      · simp only [rightRotateNode, rightRotStepA, rightRotStepB, rightRotStepC, rightRotStepD,
          rightRotStepE, rightRotStepF, rightRotSpec, setNode, Function.update_apply, hcl,
          hpo, hlr, hlc, hcl', hpc, hpl, hpc', hpl', hqc, hql, hqp, hqc', hql', hqp',
          hside, if_true, if_false, eq_self_iff_true, ite_true, ite_false]
        refine congrArg Except.ok (Prod.ext_iff.mpr ⟨PyBST.eqOfParts _ _ (fun i => ?_) rfl rfl rfl, rfl⟩)
        by_cases hic : i = c
        · subst hic; simp [Function.update_apply, hcl', hpc, hqc, hpc', hqc']
        · by_cases hil : i = l
          · subst hil; simp [Function.update_apply, hlc, hpl, hql, hpl', hql']
          · by_cases hip : i = p
            · subst hip; simp [Function.update_apply, hpc, hpl, hqp, hpc', hpl', hqp']
            · by_cases hiq : i = q
              · subst hiq; simp [Function.update_apply, hqc, hql, hqp, hqc', hql', hqp']
              · simp [Function.update_apply, hic, hil, hip, hiq]




theorem rightRotSpec_leftRotSpec (st : PyBST) (c r : Nat)
    (hcr : (st.nodes c).right = some r) (hrc : r ≠ c)
    (hrp : (st.nodes r).parent = some c)
    (hroot : (st.nodes c).parent = none → st.root = some c)
    (hp : ∀ p, (st.nodes c).parent = some p → p ≠ c ∧ p ≠ r ∧
      (st.nodes p).left ≠ some r ∧ ((st.nodes p).left = some c ∨ (st.nodes p).right = some c))
    (hq : ∀ q, (st.nodes r).left = some q → q ≠ c ∧ q ≠ r ∧ (st.nodes q).parent = some r ∧
      ∀ p, (st.nodes c).parent = some p → q ≠ p) :
    rightRotSpec (leftRotSpec st c r) r c = st := by
  have hcr' : c ≠ r := Ne.symm hrc
  rcases hpo : (st.nodes c).parent with _ | p
  · rcases hrl : (st.nodes r).left with _ | q
    ·
      refine PyBST.eqOfParts _ _ (fun i => ?_) ?_ rfl rfl
      ·
        by_cases hic : i = c
        · subst hic
          simp only [leftRotSpec, rightRotSpec, setNode, Function.update_apply, if_true, if_false, eq_self_iff_true, ite_true, ite_false, hcr, hpo, hrl, hrc, hcr', hroot hpo]
          exact pynode_rebuild _ _ _ _ hpo.symm rfl hcr.symm
        ·
          by_cases hir : i = r
          · subst hir
            simp only [leftRotSpec, rightRotSpec, setNode, Function.update_apply, if_true, if_false, eq_self_iff_true, ite_true, ite_false, hcr, hpo, hrl, hrc, hcr', hroot hpo]
            exact pynode_rebuild _ _ _ _ hrp.symm hrl.symm rfl
          ·
            simp [leftRotSpec, rightRotSpec, setNode, Function.update_apply, if_true, if_false, eq_self_iff_true, ite_true, ite_false, hcr, hpo, hrl, hrc, hcr', hroot hpo, hic, hir]
      ·
        simp [leftRotSpec, rightRotSpec, setNode, Function.update_apply, if_true, if_false, eq_self_iff_true, ite_true, ite_false, hcr, hpo, hrl, hrc, hcr', hroot hpo, hroot hpo]
    · obtain ⟨hqc, hqr, hqpar, -⟩ := hq q hrl
      have hqc' : c ≠ q := Ne.symm hqc
      have hql' : r ≠ q := Ne.symm hqr
      refine PyBST.eqOfParts _ _ (fun i => ?_) ?_ rfl rfl
      ·
        by_cases hic : i = c
        · subst hic
          simp only [leftRotSpec, rightRotSpec, setNode, Function.update_apply, if_true, if_false, eq_self_iff_true, ite_true, ite_false, hcr, hpo, hrl, hrc, hcr', hqc, hqr, hqpar, hqc', hql', hroot hpo]
          exact pynode_rebuild _ _ _ _ hpo.symm rfl hcr.symm
        ·
          by_cases hir : i = r
          · subst hir
            simp only [leftRotSpec, rightRotSpec, setNode, Function.update_apply, if_true, if_false, eq_self_iff_true, ite_true, ite_false, hcr, hpo, hrl, hrc, hcr', hqc, hqr, hqpar, hqc', hql', hroot hpo]
            exact pynode_rebuild _ _ _ _ hrp.symm hrl.symm rfl
          ·
            by_cases hiq : i = q
            · subst hiq
              simp only [leftRotSpec, rightRotSpec, setNode, Function.update_apply, if_true, if_false, eq_self_iff_true, ite_true, ite_false, hcr, hpo, hrl, hrc, hcr', hqc, hqr, hqpar, hqc', hql', hroot hpo]
              exact pynode_rebuild _ _ _ _ hqpar.symm rfl rfl
            ·
              simp [leftRotSpec, rightRotSpec, setNode, Function.update_apply, if_true, if_false, eq_self_iff_true, ite_true, ite_false, hcr, hpo, hrl, hrc, hcr', hqc, hqr, hqpar, hqc', hql', hroot hpo, hic, hir, hiq]
      ·
        simp [leftRotSpec, rightRotSpec, setNode, Function.update_apply, if_true, if_false, eq_self_iff_true, ite_true, ite_false, hcr, hpo, hrl, hrc, hcr', hqc, hqr, hqpar, hqc', hql', hroot hpo, hroot hpo]
  · obtain ⟨hpc, hpr, hplr, hpside⟩ := hp p hpo
    have hpc' : c ≠ p := Ne.symm hpc
    have hpr' : r ≠ p := Ne.symm hpr
    rcases hrl : (st.nodes r).left with _ | q
    · by_cases hside : (st.nodes p).left = some c
      ·
        refine PyBST.eqOfParts _ _ (fun i => ?_) ?_ rfl rfl
        ·
          by_cases hic : i = c
          · subst hic
            simp only [leftRotSpec, rightRotSpec, setNode, Function.update_apply, if_true, if_false, eq_self_iff_true, ite_true, ite_false, hcr, hpo, hrl, hrc, hcr', hpc, hpr, hpc', hpr', hside]
            exact pynode_rebuild _ _ _ _ hpo.symm rfl hcr.symm
          ·
            by_cases hir : i = r
            · subst hir
              simp only [leftRotSpec, rightRotSpec, setNode, Function.update_apply, if_true, if_false, eq_self_iff_true, ite_true, ite_false, hcr, hpo, hrl, hrc, hcr', hpc, hpr, hpc', hpr', hside]
              exact pynode_rebuild _ _ _ _ hrp.symm hrl.symm rfl
            ·
              by_cases hip : i = p
              · subst hip
                simp only [leftRotSpec, rightRotSpec, setNode, Function.update_apply, if_true, if_false, eq_self_iff_true, ite_true, ite_false, hcr, hpo, hrl, hrc, hcr', hpc, hpr, hpc', hpr', hside]
                exact pynode_rebuild _ _ _ _ rfl hside.symm rfl
              ·
                simp [leftRotSpec, rightRotSpec, setNode, Function.update_apply, if_true, if_false, eq_self_iff_true, ite_true, ite_false, hcr, hpo, hrl, hrc, hcr', hpc, hpr, hpc', hpr', hside, hic, hir, hip]
        ·
          simp [leftRotSpec, rightRotSpec, setNode, Function.update_apply, if_true, if_false, eq_self_iff_true, ite_true, ite_false, hcr, hpo, hrl, hrc, hcr', hpc, hpr, hpc', hpr', hside, hpo]
      · rcases hpside with hL | hR
        · exact absurd hL hside
        ·
          refine PyBST.eqOfParts _ _ (fun i => ?_) ?_ rfl rfl
          ·
            by_cases hic : i = c
            · subst hic
              simp only [leftRotSpec, rightRotSpec, setNode, Function.update_apply, if_true, if_false, eq_self_iff_true, ite_true, ite_false, hcr, hpo, hrl, hrc, hcr', hpc, hpr, hpc', hpr', hside, hplr]
              exact pynode_rebuild _ _ _ _ hpo.symm rfl hcr.symm
            ·
              by_cases hir : i = r
              · subst hir
                simp only [leftRotSpec, rightRotSpec, setNode, Function.update_apply, if_true, if_false, eq_self_iff_true, ite_true, ite_false, hcr, hpo, hrl, hrc, hcr', hpc, hpr, hpc', hpr', hside, hplr]
                exact pynode_rebuild _ _ _ _ hrp.symm hrl.symm rfl
              ·
                by_cases hip : i = p
                · subst hip
                  simp only [leftRotSpec, rightRotSpec, setNode, Function.update_apply, if_true, if_false, eq_self_iff_true, ite_true, ite_false, hcr, hpo, hrl, hrc, hcr', hpc, hpr, hpc', hpr', hside, hplr]
                  exact pynode_rebuild _ _ _ _ rfl rfl hR.symm
                ·
                  simp [leftRotSpec, rightRotSpec, setNode, Function.update_apply, if_true, if_false, eq_self_iff_true, ite_true, ite_false, hcr, hpo, hrl, hrc, hcr', hpc, hpr, hpc', hpr', hside, hplr, hic, hir, hip]
          ·
            simp [leftRotSpec, rightRotSpec, setNode, Function.update_apply, if_true, if_false, eq_self_iff_true, ite_true, ite_false, hcr, hpo, hrl, hrc, hcr', hpc, hpr, hpc', hpr', hside, hplr, hpo]
    · obtain ⟨hqc, hqr, hqpar, hqp0⟩ := hq q hrl
      have hqp : q ≠ p := hqp0 p hpo
      have hqc' : c ≠ q := Ne.symm hqc
      have hql' : r ≠ q := Ne.symm hqr
      have hqp' : p ≠ q := Ne.symm hqp
      by_cases hside : (st.nodes p).left = some c
      ·
        refine PyBST.eqOfParts _ _ (fun i => ?_) ?_ rfl rfl
        ·
          by_cases hic : i = c
          · subst hic
            simp only [leftRotSpec, rightRotSpec, setNode, Function.update_apply, if_true, if_false, eq_self_iff_true, ite_true, ite_false, hcr, hpo, hrl, hrc, hcr', hpc, hpr, hpc', hpr', hside, hqc, hqr, hqpar, hqp, hqc', hql', hqp']
            exact pynode_rebuild _ _ _ _ hpo.symm rfl hcr.symm
          ·
            by_cases hir : i = r
            · subst hir
              simp only [leftRotSpec, rightRotSpec, setNode, Function.update_apply, if_true, if_false, eq_self_iff_true, ite_true, ite_false, hcr, hpo, hrl, hrc, hcr', hpc, hpr, hpc', hpr', hside, hqc, hqr, hqpar, hqp, hqc', hql', hqp']
              exact pynode_rebuild _ _ _ _ hrp.symm hrl.symm rfl
            ·
              by_cases hip : i = p
              · subst hip
                simp only [leftRotSpec, rightRotSpec, setNode, Function.update_apply, if_true, if_false, eq_self_iff_true, ite_true, ite_false, hcr, hpo, hrl, hrc, hcr', hpc, hpr, hpc', hpr', hside, hqc, hqr, hqpar, hqp, hqc', hql', hqp']
                exact pynode_rebuild _ _ _ _ rfl hside.symm rfl
              ·
                by_cases hiq : i = q
                · subst hiq
                  simp only [leftRotSpec, rightRotSpec, setNode, Function.update_apply, if_true, if_false, eq_self_iff_true, ite_true, ite_false, hcr, hpo, hrl, hrc, hcr', hpc, hpr, hpc', hpr', hside, hqc, hqr, hqpar, hqp, hqc', hql', hqp']
                  exact pynode_rebuild _ _ _ _ hqpar.symm rfl rfl
                ·
                  simp [leftRotSpec, rightRotSpec, setNode, Function.update_apply, if_true, if_false, eq_self_iff_true, ite_true, ite_false, hcr, hpo, hrl, hrc, hcr', hpc, hpr, hpc', hpr', hside, hqc, hqr, hqpar, hqp, hqc', hql', hqp', hic, hir, hip, hiq]
        ·
          simp [leftRotSpec, rightRotSpec, setNode, Function.update_apply, if_true, if_false, eq_self_iff_true, ite_true, ite_false, hcr, hpo, hrl, hrc, hcr', hpc, hpr, hpc', hpr', hside, hqc, hqr, hqpar, hqp, hqc', hql', hqp', hpo]
      · rcases hpside with hL | hR
        · exact absurd hL hside
        ·
          refine PyBST.eqOfParts _ _ (fun i => ?_) ?_ rfl rfl
          ·
            by_cases hic : i = c
            · subst hic
              simp only [leftRotSpec, rightRotSpec, setNode, Function.update_apply, if_true, if_false, eq_self_iff_true, ite_true, ite_false, hcr, hpo, hrl, hrc, hcr', hpc, hpr, hpc', hpr', hside, hplr, hqc, hqr, hqpar, hqp, hqc', hql', hqp']
              exact pynode_rebuild _ _ _ _ hpo.symm rfl hcr.symm
            ·
              by_cases hir : i = r
              · subst hir
                simp only [leftRotSpec, rightRotSpec, setNode, Function.update_apply, if_true, if_false, eq_self_iff_true, ite_true, ite_false, hcr, hpo, hrl, hrc, hcr', hpc, hpr, hpc', hpr', hside, hplr, hqc, hqr, hqpar, hqp, hqc', hql', hqp']
                exact pynode_rebuild _ _ _ _ hrp.symm hrl.symm rfl
              ·
                by_cases hip : i = p
                · subst hip
                  simp only [leftRotSpec, rightRotSpec, setNode, Function.update_apply, if_true, if_false, eq_self_iff_true, ite_true, ite_false, hcr, hpo, hrl, hrc, hcr', hpc, hpr, hpc', hpr', hside, hplr, hqc, hqr, hqpar, hqp, hqc', hql', hqp']
                  exact pynode_rebuild _ _ _ _ rfl rfl hR.symm
                ·
                  by_cases hiq : i = q
                  · subst hiq
                    simp only [leftRotSpec, rightRotSpec, setNode, Function.update_apply, if_true, if_false, eq_self_iff_true, ite_true, ite_false, hcr, hpo, hrl, hrc, hcr', hpc, hpr, hpc', hpr', hside, hplr, hqc, hqr, hqpar, hqp, hqc', hql', hqp']
                    exact pynode_rebuild _ _ _ _ hqpar.symm rfl rfl
                  ·
                    simp [leftRotSpec, rightRotSpec, setNode, Function.update_apply, if_true, if_false, eq_self_iff_true, ite_true, ite_false, hcr, hpo, hrl, hrc, hcr', hpc, hpr, hpc', hpr', hside, hplr, hqc, hqr, hqpar, hqp, hqc', hql', hqp', hic, hir, hip, hiq]
          ·
            simp [leftRotSpec, rightRotSpec, setNode, Function.update_apply, if_true, if_false, eq_self_iff_true, ite_true, ite_false, hcr, hpo, hrl, hrc, hcr', hpc, hpr, hpc', hpr', hside, hplr, hqc, hqr, hqpar, hqp, hqc', hql', hqp', hpo]


theorem leftRotSpec_rightRotSpec (st : PyBST) (c l : Nat)
    (hcl : (st.nodes c).left = some l) (hlc : l ≠ c)
    (hlp : (st.nodes l).parent = some c)
    (hroot : (st.nodes c).parent = none → st.root = some c)
    (hp : ∀ p, (st.nodes c).parent = some p → p ≠ c ∧ p ≠ l ∧
      (st.nodes p).left ≠ some l ∧ ((st.nodes p).left = some c ∨ (st.nodes p).right = some c))
    (hq : ∀ q, (st.nodes l).right = some q → q ≠ c ∧ q ≠ l ∧ (st.nodes q).parent = some l ∧
      ∀ p, (st.nodes c).parent = some p → q ≠ p) :
    leftRotSpec (rightRotSpec st c l) l c = st := by
  have hcl' : c ≠ l := Ne.symm hlc
  rcases hpo : (st.nodes c).parent with _ | p
  · rcases hlr : (st.nodes l).right with _ | q
    ·
      refine PyBST.eqOfParts _ _ (fun i => ?_) ?_ rfl rfl
      ·
        by_cases hic : i = c
        · subst hic
          simp only [leftRotSpec, rightRotSpec, setNode, Function.update_apply, if_true, if_false, eq_self_iff_true, ite_true, ite_false, hcl, hpo, hlr, hlc, hcl', hroot hpo]
          exact pynode_rebuild _ _ _ _ hpo.symm hcl.symm rfl
        ·
          by_cases hil : i = l
          · subst hil
            simp only [leftRotSpec, rightRotSpec, setNode, Function.update_apply, if_true, if_false, eq_self_iff_true, ite_true, ite_false, hcl, hpo, hlr, hlc, hcl', hroot hpo]
            exact pynode_rebuild _ _ _ _ hlp.symm rfl hlr.symm
          ·
            simp [leftRotSpec, rightRotSpec, setNode, Function.update_apply, if_true, if_false, eq_self_iff_true, ite_true, ite_false, hcl, hpo, hlr, hlc, hcl', hroot hpo, hic, hil]
      ·
        simp [leftRotSpec, rightRotSpec, setNode, Function.update_apply, if_true, if_false, eq_self_iff_true, ite_true, ite_false, hcl, hpo, hlr, hlc, hcl', hroot hpo, hroot hpo]
    · obtain ⟨hqc, hql, hqpar, -⟩ := hq q hlr
      have hqc' : c ≠ q := Ne.symm hqc
      have hql' : l ≠ q := Ne.symm hql
      refine PyBST.eqOfParts _ _ (fun i => ?_) ?_ rfl rfl
      ·
        by_cases hic : i = c
        · subst hic
          simp only [leftRotSpec, rightRotSpec, setNode, Function.update_apply, if_true, if_false, eq_self_iff_true, ite_true, ite_false, hcl, hpo, hlr, hlc, hcl', hqc, hql, hqpar, hqc', hql', hroot hpo]
          exact pynode_rebuild _ _ _ _ hpo.symm hcl.symm rfl
        ·
          by_cases hil : i = l
          · subst hil
            simp only [leftRotSpec, rightRotSpec, setNode, Function.update_apply, if_true, if_false, eq_self_iff_true, ite_true, ite_false, hcl, hpo, hlr, hlc, hcl', hqc, hql, hqpar, hqc', hql', hroot hpo]
            exact pynode_rebuild _ _ _ _ hlp.symm rfl hlr.symm
          ·
            by_cases hiq : i = q
            · subst hiq
              simp only [leftRotSpec, rightRotSpec, setNode, Function.update_apply, if_true, if_false, eq_self_iff_true, ite_true, ite_false, hcl, hpo, hlr, hlc, hcl', hqc, hql, hqpar, hqc', hql', hroot hpo]
              exact pynode_rebuild _ _ _ _ hqpar.symm rfl rfl
            ·
              simp [leftRotSpec, rightRotSpec, setNode, Function.update_apply, if_true, if_false, eq_self_iff_true, ite_true, ite_false, hcl, hpo, hlr, hlc, hcl', hqc, hql, hqpar, hqc', hql', hroot hpo, hic, hil, hiq]
      ·
        simp [leftRotSpec, rightRotSpec, setNode, Function.update_apply, if_true, if_false, eq_self_iff_true, ite_true, ite_false, hcl, hpo, hlr, hlc, hcl', hqc, hql, hqpar, hqc', hql', hroot hpo, hroot hpo]
  · obtain ⟨hpc, hpl, hpll, hpside⟩ := hp p hpo
    have hpc' : c ≠ p := Ne.symm hpc
    have hpl' : l ≠ p := Ne.symm hpl
    rcases hlr : (st.nodes l).right with _ | q
    · by_cases hside : (st.nodes p).left = some c
      ·
        refine PyBST.eqOfParts _ _ (fun i => ?_) ?_ rfl rfl
        ·
          by_cases hic : i = c
          · subst hic
            simp only [leftRotSpec, rightRotSpec, setNode, Function.update_apply, if_true, if_false, eq_self_iff_true, ite_true, ite_false, hcl, hpo, hlr, hlc, hcl', hpc, hpl, hpc', hpl', hside]
            exact pynode_rebuild _ _ _ _ hpo.symm hcl.symm rfl
          ·
            by_cases hil : i = l
            · subst hil
              simp only [leftRotSpec, rightRotSpec, setNode, Function.update_apply, if_true, if_false, eq_self_iff_true, ite_true, ite_false, hcl, hpo, hlr, hlc, hcl', hpc, hpl, hpc', hpl', hside]
              exact pynode_rebuild _ _ _ _ hlp.symm rfl hlr.symm
            ·
              by_cases hip : i = p
              · subst hip
                simp only [leftRotSpec, rightRotSpec, setNode, Function.update_apply, if_true, if_false, eq_self_iff_true, ite_true, ite_false, hcl, hpo, hlr, hlc, hcl', hpc, hpl, hpc', hpl', hside]
                exact pynode_rebuild _ _ _ _ rfl hside.symm rfl
              ·
                simp [leftRotSpec, rightRotSpec, setNode, Function.update_apply, if_true, if_false, eq_self_iff_true, ite_true, ite_false, hcl, hpo, hlr, hlc, hcl', hpc, hpl, hpc', hpl', hside, hic, hil, hip]
        ·
          simp [leftRotSpec, rightRotSpec, setNode, Function.update_apply, if_true, if_false, eq_self_iff_true, ite_true, ite_false, hcl, hpo, hlr, hlc, hcl', hpc, hpl, hpc', hpl', hside, hpo]
      · rcases hpside with hL | hR
        · exact absurd hL hside
        ·
          refine PyBST.eqOfParts _ _ (fun i => ?_) ?_ rfl rfl
          ·
            by_cases hic : i = c
            · subst hic
              simp only [leftRotSpec, rightRotSpec, setNode, Function.update_apply, if_true, if_false, eq_self_iff_true, ite_true, ite_false, hcl, hpo, hlr, hlc, hcl', hpc, hpl, hpc', hpl', hside, hpll]
              exact pynode_rebuild _ _ _ _ hpo.symm hcl.symm rfl
            ·
              by_cases hil : i = l
              · subst hil
                simp only [leftRotSpec, rightRotSpec, setNode, Function.update_apply, if_true, if_false, eq_self_iff_true, ite_true, ite_false, hcl, hpo, hlr, hlc, hcl', hpc, hpl, hpc', hpl', hside, hpll]
                exact pynode_rebuild _ _ _ _ hlp.symm rfl hlr.symm
              ·
                by_cases hip : i = p
                · subst hip
                  simp only [leftRotSpec, rightRotSpec, setNode, Function.update_apply, if_true, if_false, eq_self_iff_true, ite_true, ite_false, hcl, hpo, hlr, hlc, hcl', hpc, hpl, hpc', hpl', hside, hpll]
                  exact pynode_rebuild _ _ _ _ rfl rfl hR.symm
                ·
                  simp [leftRotSpec, rightRotSpec, setNode, Function.update_apply, if_true, if_false, eq_self_iff_true, ite_true, ite_false, hcl, hpo, hlr, hlc, hcl', hpc, hpl, hpc', hpl', hside, hpll, hic, hil, hip]
          ·
            simp [leftRotSpec, rightRotSpec, setNode, Function.update_apply, if_true, if_false, eq_self_iff_true, ite_true, ite_false, hcl, hpo, hlr, hlc, hcl', hpc, hpl, hpc', hpl', hside, hpll, hpo]
    · obtain ⟨hqc, hql, hqpar, hqp0⟩ := hq q hlr
      have hqp : q ≠ p := hqp0 p hpo
      have hqc' : c ≠ q := Ne.symm hqc
      have hql' : l ≠ q := Ne.symm hql
      have hqp' : p ≠ q := Ne.symm hqp
      by_cases hside : (st.nodes p).left = some c
      ·
        refine PyBST.eqOfParts _ _ (fun i => ?_) ?_ rfl rfl
        ·
          by_cases hic : i = c
          · subst hic
            simp only [leftRotSpec, rightRotSpec, setNode, Function.update_apply, if_true, if_false, eq_self_iff_true, ite_true, ite_false, hcl, hpo, hlr, hlc, hcl', hpc, hpl, hpc', hpl', hside, hqc, hql, hqpar, hqp, hqc', hql', hqp']
            exact pynode_rebuild _ _ _ _ hpo.symm hcl.symm rfl
          ·
            by_cases hil : i = l
            · subst hil
              simp only [leftRotSpec, rightRotSpec, setNode, Function.update_apply, if_true, if_false, eq_self_iff_true, ite_true, ite_false, hcl, hpo, hlr, hlc, hcl', hpc, hpl, hpc', hpl', hside, hqc, hql, hqpar, hqp, hqc', hql', hqp']
              exact pynode_rebuild _ _ _ _ hlp.symm rfl hlr.symm
            ·
              by_cases hip : i = p
              · subst hip
                simp only [leftRotSpec, rightRotSpec, setNode, Function.update_apply, if_true, if_false, eq_self_iff_true, ite_true, ite_false, hcl, hpo, hlr, hlc, hcl', hpc, hpl, hpc', hpl', hside, hqc, hql, hqpar, hqp, hqc', hql', hqp']
                exact pynode_rebuild _ _ _ _ rfl hside.symm rfl
              ·
                by_cases hiq : i = q
                · subst hiq
                  simp only [leftRotSpec, rightRotSpec, setNode, Function.update_apply, if_true, if_false, eq_self_iff_true, ite_true, ite_false, hcl, hpo, hlr, hlc, hcl', hpc, hpl, hpc', hpl', hside, hqc, hql, hqpar, hqp, hqc', hql', hqp']
                  exact pynode_rebuild _ _ _ _ hqpar.symm rfl rfl
                ·
                  simp [leftRotSpec, rightRotSpec, setNode, Function.update_apply, if_true, if_false, eq_self_iff_true, ite_true, ite_false, hcl, hpo, hlr, hlc, hcl', hpc, hpl, hpc', hpl', hside, hqc, hql, hqpar, hqp, hqc', hql', hqp', hic, hil, hip, hiq]
        ·
          simp [leftRotSpec, rightRotSpec, setNode, Function.update_apply, if_true, if_false, eq_self_iff_true, ite_true, ite_false, hcl, hpo, hlr, hlc, hcl', hpc, hpl, hpc', hpl', hside, hqc, hql, hqpar, hqp, hqc', hql', hqp', hpo]
      · rcases hpside with hL | hR
        · exact absurd hL hside
        ·
          refine PyBST.eqOfParts _ _ (fun i => ?_) ?_ rfl rfl
          ·
            by_cases hic : i = c
            · subst hic
              simp only [leftRotSpec, rightRotSpec, setNode, Function.update_apply, if_true, if_false, eq_self_iff_true, ite_true, ite_false, hcl, hpo, hlr, hlc, hcl', hpc, hpl, hpc', hpl', hside, hpll, hqc, hql, hqpar, hqp, hqc', hql', hqp']
              exact pynode_rebuild _ _ _ _ hpo.symm hcl.symm rfl
            ·
              by_cases hil : i = l
              · subst hil
                simp only [leftRotSpec, rightRotSpec, setNode, Function.update_apply, if_true, if_false, eq_self_iff_true, ite_true, ite_false, hcl, hpo, hlr, hlc, hcl', hpc, hpl, hpc', hpl', hside, hpll, hqc, hql, hqpar, hqp, hqc', hql', hqp']
                exact pynode_rebuild _ _ _ _ hlp.symm rfl hlr.symm
              ·
                by_cases hip : i = p
                · subst hip
                  simp only [leftRotSpec, rightRotSpec, setNode, Function.update_apply, if_true, if_false, eq_self_iff_true, ite_true, ite_false, hcl, hpo, hlr, hlc, hcl', hpc, hpl, hpc', hpl', hside, hpll, hqc, hql, hqpar, hqp, hqc', hql', hqp']
                  exact pynode_rebuild _ _ _ _ rfl rfl hR.symm
                ·
                  by_cases hiq : i = q
                  · subst hiq
                    simp only [leftRotSpec, rightRotSpec, setNode, Function.update_apply, if_true, if_false, eq_self_iff_true, ite_true, ite_false, hcl, hpo, hlr, hlc, hcl', hpc, hpl, hpc', hpl', hside, hpll, hqc, hql, hqpar, hqp, hqc', hql', hqp']
                    exact pynode_rebuild _ _ _ _ hqpar.symm rfl rfl
                  ·
                    simp [leftRotSpec, rightRotSpec, setNode, Function.update_apply, if_true, if_false, eq_self_iff_true, ite_true, ite_false, hcl, hpo, hlr, hlc, hcl', hpc, hpl, hpc', hpl', hside, hpll, hqc, hql, hqpar, hqp, hqc', hql', hqp', hic, hil, hip, hiq]
          ·
            simp [leftRotSpec, rightRotSpec, setNode, Function.update_apply, if_true, if_false, eq_self_iff_true, ite_true, ite_false, hcl, hpo, hlr, hlc, hcl', hpc, hpl, hpc', hpl', hside, hpll, hqc, hql, hqpar, hqp, hqc', hql', hqp', hpo]


theorem leftRotSpec_fields (st : PyBST) (c r : Nat) (hrc : r ≠ c)
    (hp : ∀ p, (st.nodes c).parent = some p → p ≠ c ∧ p ≠ r)
    (hq : ∀ q, (st.nodes r).left = some q → q ≠ c ∧ q ≠ r) :
    (leftRotSpec st c r).nodes r
        = { st.nodes r with parent := (st.nodes c).parent, left := some c } ∧
    (leftRotSpec st c r).nodes c
        = { st.nodes c with parent := some r, right := (st.nodes r).left } ∧
    (leftRotSpec st c r).root
        = (if (st.nodes c).parent = none then some r else st.root) := by
  have hcr' : c ≠ r := Ne.symm hrc
  rcases hpo : (st.nodes c).parent with _ | p
  · rcases hrl : (st.nodes r).left with _ | q
    · refine ⟨?_, ?_, ?_⟩ <;> simp [leftRotSpec, setNode, Function.update_apply, if_true, if_false, eq_self_iff_true, ite_true, ite_false, hcr', hrc, hpo, hrl]
    · obtain ⟨hqc, hqr⟩ := hq q hrl
      have hqc' : c ≠ q := Ne.symm hqc
      have hqr' : r ≠ q := Ne.symm hqr
      refine ⟨?_, ?_, ?_⟩ <;> simp [leftRotSpec, setNode, Function.update_apply, if_true, if_false, eq_self_iff_true, ite_true, ite_false, hcr', hrc, hpo, hrl, hqc, hqr, hqc', hqr']
  · obtain ⟨hpc, hpr⟩ := hp p hpo
    have hpc' : c ≠ p := Ne.symm hpc
    have hpr' : r ≠ p := Ne.symm hpr
    rcases hrl : (st.nodes r).left with _ | q
    · by_cases hside : (st.nodes p).left = some c <;>
        refine ⟨?_, ?_, ?_⟩ <;>
        simp [leftRotSpec, setNode, Function.update_apply, if_true, if_false, eq_self_iff_true, ite_true, ite_false, hcr', hrc, hpo, hrl, hpc, hpr, hpc', hpr', hside]
    · obtain ⟨hqc, hqr⟩ := hq q hrl
      have hqc' : c ≠ q := Ne.symm hqc
      have hqr' : r ≠ q := Ne.symm hqr
      by_cases hside : (st.nodes p).left = some c <;>
        refine ⟨?_, ?_, ?_⟩ <;>
        simp [leftRotSpec, setNode, Function.update_apply, if_true, if_false, eq_self_iff_true, ite_true, ite_false, hcr', hrc, hpo, hrl, hpc, hpr, hpc', hpr', hqc, hqr, hqc', hqr', hside]

theorem rightRotSpec_fields (st : PyBST) (c l : Nat) (hlc : l ≠ c)
    (hp : ∀ p, (st.nodes c).parent = some p → p ≠ c ∧ p ≠ l)
    (hq : ∀ q, (st.nodes l).right = some q → q ≠ c ∧ q ≠ l) :
    (rightRotSpec st c l).nodes l
        = { st.nodes l with parent := (st.nodes c).parent, right := some c } ∧
    (rightRotSpec st c l).nodes c
        = { st.nodes c with parent := some l, left := (st.nodes l).right } ∧
    (rightRotSpec st c l).root
        = (if (st.nodes c).parent = none then some l else st.root) := by
  have hcl' : c ≠ l := Ne.symm hlc
  rcases hpo : (st.nodes c).parent with _ | p
  · rcases hlr : (st.nodes l).right with _ | q
    · refine ⟨?_, ?_, ?_⟩ <;> simp [rightRotSpec, setNode, Function.update_apply, if_true, if_false, eq_self_iff_true, ite_true, ite_false, hcl', hlc, hpo, hlr]
    · obtain ⟨hqc, hql⟩ := hq q hlr
      have hqc' : c ≠ q := Ne.symm hqc
      have hql' : l ≠ q := Ne.symm hql
      refine ⟨?_, ?_, ?_⟩ <;> simp [rightRotSpec, setNode, Function.update_apply, if_true, if_false, eq_self_iff_true, ite_true, ite_false, hcl', hlc, hpo, hlr, hqc, hql, hqc', hql']
  · obtain ⟨hpc, hpl⟩ := hp p hpo
    have hpc' : c ≠ p := Ne.symm hpc
    have hpl' : l ≠ p := Ne.symm hpl
    rcases hlr : (st.nodes l).right with _ | q
    · by_cases hside : (st.nodes p).left = some c <;>
        refine ⟨?_, ?_, ?_⟩ <;>
        simp [rightRotSpec, setNode, Function.update_apply, if_true, if_false, eq_self_iff_true, ite_true, ite_false, hcl', hlc, hpo, hlr, hpc, hpl, hpc', hpl', hside]
    · obtain ⟨hqc, hql⟩ := hq q hlr
      have hqc' : c ≠ q := Ne.symm hqc
      have hql' : l ≠ q := Ne.symm hql
      by_cases hside : (st.nodes p).left = some c <;>
        refine ⟨?_, ?_, ?_⟩ <;>
        simp [rightRotSpec, setNode, Function.update_apply, if_true, if_false, eq_self_iff_true, ite_true, ite_false, hcl', hlc, hpo, hlr, hpc, hpl, hpc', hpl', hqc, hql, hqc', hql', hside]

/-- Claim C6: rotations are mutually inverse.  For every node `c` with a
right child `r`, under the local facts that hold at any node of a well-formed
tree (the four affected nodes are distinct, `r` and the inner grandchild point
back to their parents, the parent of `c` holds `c` in the slot used by the
rotation, and the root pointer is at `c` when it has no parent),
`left_rotate(c)` succeeds returning the new parent `r`, and `right_rotate` on
that returned node succeeds and restores exactly the original parent/child/key
structure, root pointer and count; symmetrically, for a node with a left
child, `right_rotate` followed by `left_rotate` on its result is the
identity. -/
theorem C6_rotation_inverse :
    (∀ st : PyBST, ∀ c r : Nat, (st.nodes c).right = some r → r ≠ c →
      (st.nodes r).parent = some c →
      ((st.nodes c).parent = none → st.root = some c) →
      (∀ p, (st.nodes c).parent = some p → p ≠ c ∧ p ≠ r ∧
        (st.nodes p).left ≠ some r ∧
        ((st.nodes p).left = some c ∨ (st.nodes p).right = some c)) →
      (∀ q, (st.nodes r).left = some q → q ≠ c ∧ q ≠ r ∧
        (st.nodes q).parent = some r ∧
        ∀ p, (st.nodes c).parent = some p → q ≠ p) →
      leftRotateNode st c = .ok (leftRotSpec st c r, some r) ∧
      rightRotateNode (leftRotSpec st c r) r = .ok (st, some c)) ∧
    (∀ st : PyBST, ∀ c l : Nat, (st.nodes c).left = some l → l ≠ c →
      (st.nodes l).parent = some c →
      ((st.nodes c).parent = none → st.root = some c) →
      (∀ p, (st.nodes c).parent = some p → p ≠ c ∧ p ≠ l ∧
        (st.nodes p).left ≠ some l ∧
        ((st.nodes p).left = some c ∨ (st.nodes p).right = some c)) →
      (∀ q, (st.nodes l).right = some q → q ≠ c ∧ q ≠ l ∧
        (st.nodes q).parent = some l ∧
        ∀ p, (st.nodes c).parent = some p → q ≠ p) →
      rightRotateNode st c = .ok (rightRotSpec st c l, some l) ∧
      leftRotateNode (rightRotSpec st c l) l = .ok (st, some c)) := by
  constructor
  · intro st c r hcr hrc hrp hroot hp hq
    have hpw : ∀ p, (st.nodes c).parent = some p → p ≠ c ∧ p ≠ r :=
      fun p h => ⟨(hp p h).1, (hp p h).2.1⟩
    have hqw : ∀ q, (st.nodes r).left = some q → q ≠ c ∧ q ≠ r :=
      fun q h => ⟨(hq q h).1, (hq q h).2.1⟩
    have hqw2 : ∀ q, (st.nodes r).left = some q → q ≠ c ∧ q ≠ r ∧
        ∀ p, (st.nodes c).parent = some p → q ≠ p :=
      fun q h => ⟨(hq q h).1, (hq q h).2.1, (hq q h).2.2.2⟩
    obtain ⟨hfr, hfc, -⟩ := leftRotSpec_fields st c r hrc hpw hqw
    refine ⟨leftRotate_run st c r hcr hrc hpw hqw2, ?_⟩
    have h1 : ((leftRotSpec st c r).nodes r).left = some c := by rw [hfr]
    have h2 : ((leftRotSpec st c r).nodes r).parent = (st.nodes c).parent := by rw [hfr]
    have h3 : ((leftRotSpec st c r).nodes c).right = (st.nodes r).left := by rw [hfc]
    have hp2 : ∀ p, ((leftRotSpec st c r).nodes r).parent = some p → p ≠ r ∧ p ≠ c := by
      intro p h
      rw [h2] at h
      exact ⟨(hpw p h).2, (hpw p h).1⟩
    have hq2 : ∀ q, ((leftRotSpec st c r).nodes c).right = some q → q ≠ r ∧ q ≠ c ∧
        ∀ p, ((leftRotSpec st c r).nodes r).parent = some p → q ≠ p := by
      intro q h
      rw [h3] at h
      refine ⟨(hq q h).2.1, (hq q h).1, ?_⟩
      intro p hpp
      rw [h2] at hpp
      exact (hq q h).2.2.2 p hpp
    have hrun2 := rightRotate_run (leftRotSpec st c r) r c h1 (Ne.symm hrc) hp2 hq2
    rw [rightRotSpec_leftRotSpec st c r hcr hrc hrp hroot hp hq] at hrun2
    exact hrun2
  · intro st c l hcl hlc hlp hroot hp hq
    have hpw : ∀ p, (st.nodes c).parent = some p → p ≠ c ∧ p ≠ l :=
      fun p h => ⟨(hp p h).1, (hp p h).2.1⟩
    have hqw : ∀ q, (st.nodes l).right = some q → q ≠ c ∧ q ≠ l :=
      fun q h => ⟨(hq q h).1, (hq q h).2.1⟩
    have hqw2 : ∀ q, (st.nodes l).right = some q → q ≠ c ∧ q ≠ l ∧
        ∀ p, (st.nodes c).parent = some p → q ≠ p :=
      fun q h => ⟨(hq q h).1, (hq q h).2.1, (hq q h).2.2.2⟩
    obtain ⟨hfl, hfc, -⟩ := rightRotSpec_fields st c l hlc hpw hqw
    refine ⟨rightRotate_run st c l hcl hlc hpw hqw2, ?_⟩
    have h1 : ((rightRotSpec st c l).nodes l).right = some c := by rw [hfl]
    have h2 : ((rightRotSpec st c l).nodes l).parent = (st.nodes c).parent := by rw [hfl]
    have h3 : ((rightRotSpec st c l).nodes c).left = (st.nodes l).right := by rw [hfc]
    have hp2 : ∀ p, ((rightRotSpec st c l).nodes l).parent = some p → p ≠ l ∧ p ≠ c := by
      intro p h
      rw [h2] at h
      exact ⟨(hpw p h).2, (hpw p h).1⟩
    have hq2 : ∀ q, ((rightRotSpec st c l).nodes c).left = some q → q ≠ l ∧ q ≠ c ∧
        ∀ p, ((rightRotSpec st c l).nodes l).parent = some p → q ≠ p := by
      intro q h
      rw [h3] at h
      refine ⟨(hq q h).2.1, (hq q h).1, ?_⟩
      intro p hpp
      rw [h2] at hpp
      exact (hq q h).2.2.2 p hpp
    have hrun2 := leftRotate_run (rightRotSpec st c l) l c h1 (Ne.symm hlc) hp2 hq2
    rw [leftRotSpec_rightRotSpec st c l hcl hlc hlp hroot hp hq] at hrun2
    exact hrun2

/-- Claim C6 witness: on the three-node tree, left-rotating the root (node 0,
right child node 2) and then right-rotating the returned node restores the
original state, and symmetrically right-then-left through node 1. -/
theorem C6_rotation_inverse_witness :
    (leftRotateNode triSt 0 = .ok (leftRotSpec triSt 0 2, some 2) ∧
      rightRotateNode (leftRotSpec triSt 0 2) 2 = .ok (triSt, some 0)) ∧
    (rightRotateNode triSt 0 = .ok (rightRotSpec triSt 0 1, some 1) ∧
      leftRotateNode (rightRotSpec triSt 0 1) 1 = .ok (triSt, some 0)) :=
  ⟨C6_rotation_inverse.1 triSt 0 2 rfl (by decide) rfl (fun _ => rfl)
      (fun p h => nomatch h) (fun q h => nomatch h),
   C6_rotation_inverse.2 triSt 0 1 rfl (by decide) rfl (fun _ => rfl)
      (fun p h => nomatch h) (fun q h => nomatch h)⟩

/-- Claim C7: `left_rotate` raises exactly when the target node has no right
child and `right_rotate` exactly when it has no left child (for a key
argument, a key not found by the search also raises); when the precondition
holds (stated with the local distinctness facts of a well-formed tree), the
rotation succeeds, returns the new parent of the rotated node — the node now
holding it as a child — and, when the rotated node was the root (no parent),
updates the tree's root pointer to that new parent. -/
theorem C7_rotation_preconditions :
    (∀ st u, (st.nodes u).right = none → leftRotateNode st u = .error .exception) ∧
    (∀ st u, (st.nodes u).left = none → rightRotateNode st u = .error .exception) ∧
    (∀ st k fuel, searchIFrom st k st.root fuel = some none →
      leftRotateArg st (.key k) fuel = some (.error .exception) ∧
      rightRotateArg st (.key k) fuel = some (.error .exception)) ∧
    (∀ st u r, (st.nodes u).right = some r → r ≠ u →
      (∀ p, (st.nodes u).parent = some p → p ≠ u ∧ p ≠ r) →
      (∀ q, (st.nodes r).left = some q → q ≠ u ∧ q ≠ r ∧
        ∀ p, (st.nodes u).parent = some p → q ≠ p) →
      leftRotateNode st u = .ok (leftRotSpec st u r, some r) ∧
      ((leftRotSpec st u r).nodes u).parent = some r ∧
      ((st.nodes u).parent = none → (leftRotSpec st u r).root = some r)) ∧
    (∀ st u l, (st.nodes u).left = some l → l ≠ u →
      (∀ p, (st.nodes u).parent = some p → p ≠ u ∧ p ≠ l) →
      (∀ q, (st.nodes l).right = some q → q ≠ u ∧ q ≠ l ∧
        ∀ p, (st.nodes u).parent = some p → q ≠ p) →
      rightRotateNode st u = .ok (rightRotSpec st u l, some l) ∧
      ((rightRotSpec st u l).nodes u).parent = some l ∧
      ((st.nodes u).parent = none → (rightRotSpec st u l).root = some l)) := by
  refine ⟨fun st u h => ?_, fun st u h => ?_, fun st k fuel h => ?_,
    fun st u r hcr hrc hp hq => ?_, fun st u l hcl hlc hp hq => ?_⟩
  · simp [leftRotateNode, h]
  · simp [rightRotateNode, h]
  · constructor <;> simp [leftRotateArg, rightRotateArg, h]
  · obtain ⟨-, hfc, hfroot⟩ := leftRotSpec_fields st u r hrc hp
      (fun q hh => ⟨(hq q hh).1, (hq q hh).2.1⟩)
    refine ⟨leftRotate_run st u r hcr hrc hp hq, ?_, ?_⟩
    · rw [hfc]
    · intro hpo
      rw [hfroot, if_pos hpo]
  · obtain ⟨-, hfc, hfroot⟩ := rightRotSpec_fields st u l hlc hp
      (fun q hh => ⟨(hq q hh).1, (hq q hh).2.1⟩)
    refine ⟨rightRotate_run st u l hcl hlc hp hq, ?_, ?_⟩
    · rw [hfc]
    · intro hpo
      rw [hfroot, if_pos hpo]

/-- Claim C7 witness: on the three-node tree, node 1 has no right child so
`left_rotate` raises, an absent key raises, and left-rotating the root
(node 0) succeeds, returns its right child node 2 as the new parent and moves
the root pointer to node 2. -/
theorem C7_rotation_preconditions_witness :
    leftRotateNode triSt 1 = .error .exception ∧
    rightRotateNode triSt 1 = .error .exception ∧
    leftRotateArg triSt (.key 99) 4 = some (.error .exception) ∧
    leftRotateNode triSt 0 = .ok (leftRotSpec triSt 0 2, some 2) ∧
    ((leftRotSpec triSt 0 2).nodes 0).parent = some 2 ∧
    (leftRotSpec triSt 0 2).root = some 2 ∧
    rightRotateNode triSt 0 = .ok (rightRotSpec triSt 0 1, some 1) := by
  have h4 := C7_rotation_preconditions.2.2.2.1 triSt 0 2 rfl (by decide)
    (fun p h => nomatch h) (fun q h => nomatch h)
  have h5 := C7_rotation_preconditions.2.2.2.2 triSt 0 1 rfl (by decide)
    (fun p h => nomatch h) (fun q h => nomatch h)
  exact ⟨C7_rotation_preconditions.1 triSt 1 rfl,
    C7_rotation_preconditions.2.1 triSt 1 rfl,
    (C7_rotation_preconditions.2.2.1 triSt 99 4 rfl).1,
    h4.1, h4.2.1, h4.2.2 rfl, h5.1⟩

end Ands
